import Mathlib

/-!
# Verification of the Roohpro50 content-distribution core

Shallow embedding of the client-side content-distribution engine of the
repository: the recommendation ranker (`applySmartRecommendations`, two file
variants), the section allocators (`pickVideos`, `getVideosForSection`,
`getUniqueBatch`), the circular carousel buffer (`displayVideos`, `animate`),
and the byte-range prefetch cache (`preloadVideoChunk`, `initSmartBuffering`,
`cleanUpOldCache`).

Conventions of the embedding:
* `Math.random()` is modelled by an explicit random stream `ρ : ℕ → ℚ`
  (each draw should lie in `[0,1)`); every call site consumes fresh indices.
* JavaScript `Array.prototype.sort` with an (effectful, possibly
  inconsistent) comparator is modelled by a stable merge sort that threads a
  comparison counter, so that each comparison evaluates the comparator on
  fresh random draws — exactly like the source, whose comparators call
  `Math.random()` on every invocation.
* JS `Set<string>` is modelled by a `List String` used only through
  membership.
* The browser `Cache` keyed store is modelled by an association list in
  insertion order; the network is an oracle `String → FetchResult` that may
  throw.
* Only the record fields the core reads are modelled (`id`, `video_url`,
  `category`, `is_trending`, `video_type`); the remaining fields of the
  source `Video` records (title, description, …) are never consulted by the
  ranker, allocator, carousel or cache code.
-/

/-- A video record, restricted to the fields read by the core
(`src/types` / Firestore documents). `video_url` uses `""` for the JS
falsy/absent case. -/
structure Video where
  id : String
  video_url : String
  category : String
  is_trending : Bool
  video_type : String
  deriving DecidableEq, Repr

/-- One watch-history entry (`{ id, progress }`), progress in `[0,1]`. -/
structure WatchEntry where
  id : String
  progress : ℚ
  deriving DecidableEq, Repr

/-- The slice of `UserInteractions` read by the ranker
(`likedIds`, `dislikedIds`, `watchHistory`); the other fields
(`savedIds`, `downloadedIds`, `savedCategoryNames`) are never read by the
ranking code. -/
structure UserInteractions where
  likedIds : List String
  dislikedIds : List String
  watchHistory : List WatchEntry
  deriving DecidableEq, Repr

/-- An explicit stream of `Math.random()` draws. -/
abbrev RandStream := ℕ → ℚ

/-- All draws of the stream lie in `[0,1)`, as `Math.random()` guarantees. -/
def StreamBounded (ρ : RandStream) : Prop := ∀ k, 0 ≤ ρ k ∧ ρ k < 1

/-- A comparator in the style of `Array.prototype.sort`: given the index of
the comparison being performed (used to consume fresh random draws) and the
two elements, returns the JS comparator value (negative puts the first
element first). -/
abbrev JsCmp := ℕ → Video → Video → ℚ

/-- Stable merge of two runs under a JS comparator, threading the comparison
counter; `fuel` only forces structural termination and is always supplied
large enough. The element of the left run goes first when the comparator
value is `≤ 0`, matching stable JS engine sorts. -/
def mergeF (c : JsCmp) : ℕ → ℕ → List Video → List Video → List Video × ℕ
  | 0, n, xs, ys => (xs ++ ys, n)
  | _ + 1, n, [], ys => (ys, n)
  | _ + 1, n, x :: xs, [] => (x :: xs, n)
  | fuel + 1, n, x :: xs, y :: ys =>
      if c n x y ≤ 0 then
        let r := mergeF c fuel (n + 1) xs (y :: ys)
        (x :: r.1, r.2)
      else
        let r := mergeF c fuel (n + 1) (x :: xs) ys
        (y :: r.1, r.2)

/-- Stable merge sort under a JS comparator, threading the comparison
counter (fuelled for structural termination). -/
def msortF (c : JsCmp) : ℕ → ℕ → List Video → List Video × ℕ
  | 0, n, l => (l, n)
  | _ + 1, n, [] => ([], n)
  | _ + 1, n, [x] => ([x], n)
  | fuel + 1, n, l =>
      let l₁ := l.take (l.length / 2)
      let l₂ := l.drop (l.length / 2)
      let s₁ := msortF c fuel n l₁
      let s₂ := msortF c fuel s₁.2 l₂
      mergeF c (s₁.1.length + s₂.1.length) s₂.2 s₁.1 s₂.1

/-- `Array.prototype.sort` with a JS comparator: model entry point.
Returns the sorted list together with the next unused comparison index. -/
def jsSort (c : JsCmp) (n : ℕ) (l : List Video) : List Video × ℕ :=
  msortF c l.length n l

/-- `mergeF` with enough fuel returns a permutation of its two runs. -/
theorem mergeF_perm (c : JsCmp) :
    ∀ fuel n xs ys, (mergeF c fuel n xs ys).1.Perm (xs ++ ys) := by
  intro fuel
  induction fuel with
  | zero => intro n xs ys; simp [mergeF]
  | succ fuel ih =>
      intro n xs ys
      match xs, ys with
      | [], ys => simp [mergeF]
      | x :: xs, [] => simp [mergeF]
      | x :: xs, y :: ys =>
          by_cases h : c n x y ≤ 0
          · simpa [mergeF, h] using (ih (n + 1) xs (y :: ys)).cons x
          · refine List.Perm.trans ?_ (List.perm_middle).symm
            simpa [mergeF, h] using (ih (n + 1) (x :: xs) ys).cons y

/-- `msortF` with enough fuel returns a permutation of its input. -/
theorem msortF_perm (c : JsCmp) :
    ∀ fuel n l, l.length ≤ fuel → (msortF c fuel n l).1.Perm l := by
  intro fuel
  induction fuel with
  | zero =>
      intro n l hl
      interval_cases h : l.length
      · simpa using (List.length_eq_zero.mp h) ▸ List.Perm.refl _
  | succ fuel ih =>
      intro n l hl
      match l with
      | [] => simp [msortF]
      | [x] => simp [msortF]
      | a :: b :: t =>
          set L := a :: b :: t with hL
          have hlen2 : 2 ≤ L.length := by simp [hL]
          have h₁ : (L.take (L.length / 2)).length ≤ fuel := by
            have : L.length / 2 < L.length := Nat.div_lt_self (by omega) (by omega)
            simp only [List.length_take]
            omega
          have h₂ : (L.drop (L.length / 2)).length ≤ fuel := by
            have : 1 ≤ L.length / 2 := by omega
            simp only [List.length_drop]
            omega
          have p₁ := ih n (L.take (L.length / 2)) h₁
          have p₂ := ih (msortF c fuel n (L.take (L.length / 2))).2
            (L.drop (L.length / 2)) h₂
          have pm := mergeF_perm c
            ((msortF c fuel n (L.take (L.length / 2))).1.length +
              (msortF c fuel (msortF c fuel n (L.take (L.length / 2))).2
                (L.drop (L.length / 2))).1.length)
            (msortF c fuel (msortF c fuel n (L.take (L.length / 2))).2
              (L.drop (L.length / 2))).2
            (msortF c fuel n (L.take (L.length / 2))).1
            (msortF c fuel (msortF c fuel n (L.take (L.length / 2))).2
              (L.drop (L.length / 2))).1
          have : (msortF c (fuel + 1) n L).1.Perm
              ((L.take (L.length / 2)) ++ (L.drop (L.length / 2))) := by
            refine List.Perm.trans ?_ (p₁.append p₂)
            simpa [msortF] using pm
          simpa [List.take_append_drop] using this

/-- `jsSort` permutes its input, for every comparator and counter. -/
theorem jsSort_perm (c : JsCmp) (n : ℕ) (l : List Video) :
    (jsSort c n l).1.Perm l :=
  msortF_perm c l.length n l le_rfl

/-! ## Recommendation ranker (`applySmartRecommendations`, two variants)

`src/MainContent.tsx` (the `App` component, lines 972–1016) and
`src/unnamed/part_005` (lines 66–97) each define the ranker.  Both compute
`seen = likedIds ∪ dislikedIds ∪ {id | watchHistory progress > 0.1}`,
partition the pool preserving pool order, score with interest/trending
bonuses plus a random term, sort each partition descending by score, and
return `sortedUnseen ++ sortedSeen`.  The `part_005` variant additionally
shuffles the unseen partition (`sort(() => Math.random() - 0.5)`) before
scoring, and uses a `Math.random() * 5` tie-break instead of the
`Math.random() * 10` base term of the `MainContent.tsx` variant. -/

/-- The `seen` id set of the ranker:
`new Set([...likedIds, ...dislikedIds, ...watchHistory.filter(w => w.progress > 0.1).map(w => w.id)])`. -/
def seenIdsOf (inter : UserInteractions) : List String :=
  inter.likedIds ++ inter.dislikedIds ++
    (inter.watchHistory.filter (fun w => decide (w.progress > 1/10))).map (·.id)

/-- Bool form of "this video is seen" (`seenIds.has(v.id)`). -/
def isSeen (inter : UserInteractions) (v : Video) : Bool :=
  decide (v.id ∈ seenIdsOf inter)

/-- `scoreVideo` of `src/MainContent.tsx:991-1005`:
`Math.random() * 10` base, `+20` interest-category bonus, `+5` trending
bonus.  The random draw is an explicit argument. -/
def scoreVideoMC (userInterests : List String) (v : Video) (r : ℚ) : ℚ :=
  10 * r + (if v.category ∈ userInterests then 20 else 0) +
    (if v.is_trending then 5 else 0)

/-- `scoreVideo` of `src/unnamed/part_005:84-91`:
`+20` interest bonus, `+5` trending bonus, then `Math.random() * 5`
tie-break. -/
def scoreVideoP5 (userInterests : List String) (v : Video) (r : ℚ) : ℚ :=
  (if v.category ∈ userInterests then 20 else 0) +
    (if v.is_trending then 5 else 0) + 5 * r

/-- The deterministic part of a video's score (the bonus tier):
interest bonus plus trending bonus.  Identical for both variants. -/
def baseScore (userInterests : List String) (v : Video) : ℚ :=
  (if v.category ∈ userInterests then 20 else 0) +
    (if v.is_trending then 5 else 0)

/-- The comparator `(a, b) => scoreVideo(b) - scoreVideo(a)` of
`MainContent.tsx`, drawing `ρ (2n)` for `scoreVideo(b)` and `ρ (2n+1)` for
`scoreVideo(a)` at the `n`-th comparison. -/
def cmpMC (userInterests : List String) (ρ : RandStream) : JsCmp :=
  fun n a b => scoreVideoMC userInterests b (ρ (2 * n)) -
    scoreVideoMC userInterests a (ρ (2 * n + 1))

/-- The comparator `(a, b) => scoreVideo(b) - scoreVideo(a)` of
`part_005`. -/
def cmpP5 (userInterests : List String) (ρ : RandStream) : JsCmp :=
  fun n a b => scoreVideoP5 userInterests b (ρ (2 * n)) -
    scoreVideoP5 userInterests a (ρ (2 * n + 1))

/-- The shuffle comparator `() => Math.random() - 0.5` of `part_005:82`,
drawing one random per comparison. -/
def cmpShuffleP5 (ρ : RandStream) : JsCmp :=
  fun n _ _ => ρ (2 * n) - 1/2

/-- `applySmartRecommendations` of `src/MainContent.tsx:973-1016`.
The interest list (`SmartBrain.getTopInterests()`) and the random stream
are explicit inputs. -/
def applySmartRecommendationsMC (userInterests : List String) (ρ : RandStream)
    (videos : List Video) (inter : UserInteractions) : List Video :=
  if videos = [] then [] else
    let unseenVideos := videos.filter (fun v => !isSeen inter v)
    let seenVideos := videos.filter (fun v => isSeen inter v)
    let su := jsSort (cmpMC userInterests ρ) 0 unseenVideos
    let ss := jsSort (cmpMC userInterests ρ) su.2 seenVideos
    su.1 ++ ss.1

/-- `applySmartRecommendations` of `src/unnamed/part_005:66-97`: the unseen
partition is first shuffled (`sort(() => Math.random() - 0.5)`), then both
partitions are sorted by the scoring comparator. -/
def applySmartRecommendationsP5 (userInterests : List String) (ρ : RandStream)
    (videos : List Video) (inter : UserInteractions) : List Video :=
  if videos = [] then [] else
    let unseenVideos := videos.filter (fun v => !isSeen inter v)
    let seenVideos := videos.filter (fun v => isSeen inter v)
    let sh := jsSort (cmpShuffleP5 ρ) 0 unseenVideos
    let su := jsSort (cmpP5 userInterests ρ) sh.2 sh.1
    let ss := jsSort (cmpP5 userInterests ρ) su.2 seenVideos
    su.1 ++ ss.1

/-- The two partitions of a filtered list recombine into a permutation of
the original list. -/
theorem filter_partition_perm (inter : UserInteractions) (videos : List Video) :
    ((videos.filter (fun v => !isSeen inter v)) ++
      (videos.filter (fun v => isSeen inter v))).Perm videos := by
  simpa [Bool.not_not] using
    List.filter_append_perm (fun v => !isSeen inter v) videos

/-- Helper: a ranked output of the shape
`sortU ++ sortS` with `sortU` a permutation of the unseen filter and
`sortS` a permutation of the seen filter is a permutation of the pool and
puts no unseen video after a seen one. -/
theorem ranked_shape_ok (inter : UserInteractions) (videos su ss : List Video)
    (hu : su.Perm (videos.filter (fun v => !isSeen inter v)))
    (hs : ss.Perm (videos.filter (fun v => isSeen inter v))) :
    ((su ++ ss).Perm videos ∧
      (su ++ ss).Pairwise (fun a b => isSeen inter a → isSeen inter b)) := by
  constructor
  · exact (hu.append hs).trans (filter_partition_perm inter videos)
  · rw [List.pairwise_append]
    refine ⟨?_, ?_, ?_⟩
    · refine List.Pairwise.imp_of_mem ?_ (List.pairwise_of_forall (fun _ _ => True.intro))
      intro a b ha _ _ hseen
      have := List.of_mem_filter (hu.subset ha)
      simp only [Bool.not_eq_true'] at this
      exact absurd hseen (by simp [this])
    · refine List.Pairwise.imp_of_mem ?_ (List.pairwise_of_forall (fun _ _ => True.intro))
      intro a b _ hb _ _
      exact List.of_mem_filter (hs.subset hb)
    · intro a ha b hb _
      exact List.of_mem_filter (hs.subset hb)

/-- Both ranker variants permute the pool and never place an unseen video
after a seen one (shared workhorse lemma). -/
theorem ranker_shape (userInterests : List String) (ρ : RandStream)
    (videos : List Video) (inter : UserInteractions) :
    ((applySmartRecommendationsMC userInterests ρ videos inter).Perm videos ∧
      (applySmartRecommendationsMC userInterests ρ videos inter).Pairwise
        (fun a b => isSeen inter a → isSeen inter b)) ∧
    ((applySmartRecommendationsP5 userInterests ρ videos inter).Perm videos ∧
      (applySmartRecommendationsP5 userInterests ρ videos inter).Pairwise
        (fun a b => isSeen inter a → isSeen inter b)) := by
  by_cases hv : videos = []
  · subst hv
    simp [applySmartRecommendationsMC, applySmartRecommendationsP5]
  · constructor
    · have h := ranked_shape_ok inter videos
        (jsSort (cmpMC userInterests ρ) 0
          (videos.filter (fun v => !isSeen inter v))).1
        (jsSort (cmpMC userInterests ρ)
          (jsSort (cmpMC userInterests ρ) 0
            (videos.filter (fun v => !isSeen inter v))).2
          (videos.filter (fun v => isSeen inter v))).1
        (jsSort_perm _ _ _) (jsSort_perm _ _ _)
      simpa [applySmartRecommendationsMC, hv] using h
    · have hshuf : (jsSort (cmpShuffleP5 ρ) 0
          (videos.filter (fun v => !isSeen inter v))).1.Perm
          (videos.filter (fun v => !isSeen inter v)) := jsSort_perm _ _ _
      have h := ranked_shape_ok inter videos
        (jsSort (cmpP5 userInterests ρ)
          (jsSort (cmpShuffleP5 ρ) 0
            (videos.filter (fun v => !isSeen inter v))).2
          (jsSort (cmpShuffleP5 ρ) 0
            (videos.filter (fun v => !isSeen inter v))).1).1
        (jsSort (cmpP5 userInterests ρ)
          (jsSort (cmpP5 userInterests ρ)
            (jsSort (cmpShuffleP5 ρ) 0
              (videos.filter (fun v => !isSeen inter v))).2
            (jsSort (cmpShuffleP5 ρ) 0
              (videos.filter (fun v => !isSeen inter v))).1).2
          (videos.filter (fun v => isSeen inter v))).1
        ((jsSort_perm _ _ _).trans hshuf) (jsSort_perm _ _ _)
      simpa [applySmartRecommendationsP5, hv] using h

/-- C1: For every video pool and every interaction state (and any interest
list and random stream), both ranker variants output exactly the pool's
videos (a permutation), and no unseen video — one whose id is outside
`seen = likedIds ∪ dislikedIds ∪ {id | watch progress > 0.1}` — ever
appears after a seen one: once a seen video occurs in the output,
everything after it is seen. -/
theorem ranker_unseen_before_seen (userInterests : List String)
    (ρ : RandStream) (videos : List Video) (inter : UserInteractions) :
    ((applySmartRecommendationsMC userInterests ρ videos inter).Perm videos ∧
      (applySmartRecommendationsMC userInterests ρ videos inter).Pairwise
        (fun a b => isSeen inter a → isSeen inter b)) ∧
    ((applySmartRecommendationsP5 userInterests ρ videos inter).Perm videos ∧
      (applySmartRecommendationsP5 userInterests ρ videos inter).Pairwise
        (fun a b => isSeen inter a → isSeen inter b)) :=
  ranker_shape userInterests ρ videos inter

/-! ## Bonus tiers and sortedness of the score sort -/

/-- A JS comparator respects a base (tier) function when every single
comparison deterministically orders elements of different tiers:
the higher-tier element always compares as "first", whatever the random
draws consumed at that comparison. -/
def RespectsBase (c : JsCmp) (base : Video → ℚ) : Prop :=
  ∀ n a b, (base b < base a → c n a b ≤ 0) ∧ (base a < base b → 0 < c n a b)

/-- Descending-by-tier ordering predicate on lists. -/
def TierSorted (base : Video → ℚ) (l : List Video) : Prop :=
  l.Pairwise (fun a b => base b ≤ base a)

/-- Merging two tier-sorted runs under a tier-respecting comparator yields a
tier-sorted run (however the random tie draws fall). -/
theorem mergeF_tierSorted (c : JsCmp) (base : Video → ℚ)
    (hc : RespectsBase c base) :
    ∀ fuel n xs ys, xs.length + ys.length ≤ fuel →
      TierSorted base xs → TierSorted base ys →
      TierSorted base (mergeF c fuel n xs ys).1 := by
  intro fuel
  induction fuel with
  | zero =>
      intro n xs ys hlen hxs hys
      match xs, ys with
      | [], [] => simpa [mergeF, TierSorted] using List.Pairwise.nil
      | x :: xs, ys => simp at hlen
      | [], y :: ys => simp at hlen
  | succ fuel ih =>
      intro n xs ys hlen hxs hys
      match xs, ys with
      | [], ys => simpa [mergeF] using hys
      | x :: xs, [] => simpa [mergeF] using hxs
      | x :: xs, y :: ys =>
          rcases List.pairwise_cons.mp hxs with ⟨hx, hxs'⟩
          rcases List.pairwise_cons.mp hys with ⟨hy, hys'⟩
          by_cases h : c n x y ≤ 0
          · have hyx : base y ≤ base x := by
              by_contra hlt
              exact absurd ((hc n x y).2 (lt_of_not_le hlt)) (by linarith)
            have htail := ih (n + 1) xs (y :: ys) (by simp at hlen ⊢; omega)
              hxs' hys
            have hmem : ∀ z ∈ (mergeF c fuel (n + 1) xs (y :: ys)).1,
                base z ≤ base x := by
              intro z hz
              have := (mergeF_perm c fuel (n + 1) xs (y :: ys)).subset hz
              rcases List.mem_append.mp this with hzx | hzy
              · exact hx z hzx
              · rcases List.mem_cons.mp hzy with rfl | hzy'
                · exact hyx
                · exact le_trans (hy z hzy') hyx
            simpa [mergeF, h, TierSorted] using
              List.pairwise_cons.mpr ⟨hmem, htail⟩
          · have hxy : base x ≤ base y := by
              by_contra hlt
              exact absurd ((hc n x y).1 (lt_of_not_le hlt)) h
            have htail := ih (n + 1) (x :: xs) ys (by simp at hlen ⊢; omega)
              hxs hys'
            have hmem : ∀ z ∈ (mergeF c fuel (n + 1) (x :: xs) ys).1,
                base z ≤ base y := by
              intro z hz
              have := (mergeF_perm c fuel (n + 1) (x :: xs) ys).subset hz
              rcases List.mem_append.mp this with hzx | hzy
              · rcases List.mem_cons.mp hzx with rfl | hzx'
                · exact hxy
                · exact le_trans (hx z hzx') hxy
              · exact hy z hzy
            simpa [mergeF, h, TierSorted] using
              List.pairwise_cons.mpr ⟨hmem, htail⟩

/-- The merge sort under a tier-respecting comparator produces a tier-sorted
list (however the random tie draws fall). -/
theorem msortF_tierSorted (c : JsCmp) (base : Video → ℚ)
    (hc : RespectsBase c base) :
    ∀ fuel n l, l.length ≤ fuel → TierSorted base (msortF c fuel n l).1 := by
  intro fuel
  induction fuel with
  | zero =>
      intro n l hl
      interval_cases h : l.length
      · rw [List.length_eq_zero.mp h]
        simpa [msortF, TierSorted] using List.Pairwise.nil
  | succ fuel ih =>
      intro n l hl
      match l with
      | [] => simpa [msortF, TierSorted] using List.Pairwise.nil
      | [x] => simpa [msortF, TierSorted] using List.pairwise_singleton _ _
      | a :: b :: t =>
          set L := a :: b :: t with hL
          have hlen2 : 2 ≤ L.length := by simp [hL]
          have h₁ : (L.take (L.length / 2)).length ≤ fuel := by
            have : L.length / 2 < L.length := Nat.div_lt_self (by omega) (by omega)
            simp only [List.length_take]; omega
          have h₂ : (L.drop (L.length / 2)).length ≤ fuel := by
            have : 1 ≤ L.length / 2 := by omega
            simp only [List.length_drop]; omega
          have s₁ := ih n (L.take (L.length / 2)) h₁
          have s₂ := ih (msortF c fuel n (L.take (L.length / 2))).2
            (L.drop (L.length / 2)) h₂
          have := mergeF_tierSorted c base hc
            ((msortF c fuel n (L.take (L.length / 2))).1.length +
              (msortF c fuel (msortF c fuel n (L.take (L.length / 2))).2
                (L.drop (L.length / 2))).1.length)
            (msortF c fuel (msortF c fuel n (L.take (L.length / 2))).2
              (L.drop (L.length / 2))).2
            (msortF c fuel n (L.take (L.length / 2))).1
            (msortF c fuel (msortF c fuel n (L.take (L.length / 2))).2
              (L.drop (L.length / 2))).1
            le_rfl s₁ s₂
          simpa [msortF] using this

/-- `jsSort` under a tier-respecting comparator is tier-sorted. -/
theorem jsSort_tierSorted (c : JsCmp) (base : Video → ℚ)
    (hc : RespectsBase c base) (n : ℕ) (l : List Video) :
    TierSorted base (jsSort c n l).1 :=
  msortF_tierSorted c base hc l.length n l le_rfl

/-- Distinct bonus tiers are separated by at least `5` (the tier values are
`0`, `5`, `20`, `25`). -/
theorem baseScore_gap (userInterests : List String) (a b : Video)
    (h : baseScore userInterests a < baseScore userInterests b) :
    baseScore userInterests a + 5 ≤ baseScore userInterests b := by
  unfold baseScore at *
  split_ifs at * <;> norm_num at * <;> linarith

/-- The `part_005` comparator respects the bonus tiers whenever the random
stream is a genuine `Math.random()` stream (draws in `[0,1)`): its
`Math.random() * 5` tie-break can never undo a tier gap. -/
theorem cmpP5_respectsBase (userInterests : List String) (ρ : RandStream)
    (hρ : StreamBounded ρ) :
    RespectsBase (cmpP5 userInterests ρ) (baseScore userInterests) := by
  intro n a b
  have h₁ := hρ (2 * n)
  have h₂ := hρ (2 * n + 1)
  constructor
  · intro hlt
    have := baseScore_gap userInterests b a hlt
    simp only [cmpP5, scoreVideoP5, baseScore] at *
    linarith
  · intro hlt
    have := baseScore_gap userInterests a b hlt
    simp only [cmpP5, scoreVideoP5, baseScore] at *
    linarith

/-- Unfolding of the `MainContent.tsx` ranker on a non-empty pool. -/
theorem rankMC_eq (userInterests : List String) (ρ : RandStream)
    (videos : List Video) (inter : UserInteractions) (hv : videos ≠ []) :
    applySmartRecommendationsMC userInterests ρ videos inter =
      (jsSort (cmpMC userInterests ρ) 0
        (videos.filter (fun v => !isSeen inter v))).1 ++
      (jsSort (cmpMC userInterests ρ)
        (jsSort (cmpMC userInterests ρ) 0
          (videos.filter (fun v => !isSeen inter v))).2
        (videos.filter (fun v => isSeen inter v))).1 := by
  simp [applySmartRecommendationsMC, hv]

/-- Unfolding of the `part_005` ranker on a non-empty pool. -/
theorem rankP5_eq (userInterests : List String) (ρ : RandStream)
    (videos : List Video) (inter : UserInteractions) (hv : videos ≠ []) :
    applySmartRecommendationsP5 userInterests ρ videos inter =
      (jsSort (cmpP5 userInterests ρ)
        (jsSort (cmpShuffleP5 ρ) 0
          (videos.filter (fun v => !isSeen inter v))).2
        (jsSort (cmpShuffleP5 ρ) 0
          (videos.filter (fun v => !isSeen inter v))).1).1 ++
      (jsSort (cmpP5 userInterests ρ)
        (jsSort (cmpP5 userInterests ρ)
          (jsSort (cmpShuffleP5 ρ) 0
            (videos.filter (fun v => !isSeen inter v))).2
          (jsSort (cmpShuffleP5 ρ) 0
            (videos.filter (fun v => !isSeen inter v))).1).2
        (videos.filter (fun v => isSeen inter v))).1 := by
  simp [applySmartRecommendationsP5, hv]

/-- The `MainContent.tsx` ranker's first `k` entries (`k` = number of unseen
videos) are exactly its sorted-unseen block, and the rest its sorted-seen
block. -/
theorem rankMC_take_drop (userInterests : List String) (ρ : RandStream)
    (videos : List Video) (inter : UserInteractions) (hv : videos ≠ []) :
    (applySmartRecommendationsMC userInterests ρ videos inter).take
        (videos.filter (fun v => !isSeen inter v)).length =
      (jsSort (cmpMC userInterests ρ) 0
        (videos.filter (fun v => !isSeen inter v))).1 ∧
    (applySmartRecommendationsMC userInterests ρ videos inter).drop
        (videos.filter (fun v => !isSeen inter v)).length =
      (jsSort (cmpMC userInterests ρ)
        (jsSort (cmpMC userInterests ρ) 0
          (videos.filter (fun v => !isSeen inter v))).2
        (videos.filter (fun v => isSeen inter v))).1 := by
  rw [rankMC_eq userInterests ρ videos inter hv]
  have hlen : (jsSort (cmpMC userInterests ρ) 0
      (videos.filter (fun v => !isSeen inter v))).1.length =
      (videos.filter (fun v => !isSeen inter v)).length :=
    (jsSort_perm _ _ _).length_eq
  exact ⟨List.take_left' hlen, List.drop_left' hlen⟩

/-- The `part_005` ranker's first `k` entries are its sorted-unseen block,
and the rest its sorted-seen block. -/
theorem rankP5_take_drop (userInterests : List String) (ρ : RandStream)
    (videos : List Video) (inter : UserInteractions) (hv : videos ≠ []) :
    (applySmartRecommendationsP5 userInterests ρ videos inter).take
        (videos.filter (fun v => !isSeen inter v)).length =
      (jsSort (cmpP5 userInterests ρ)
        (jsSort (cmpShuffleP5 ρ) 0
          (videos.filter (fun v => !isSeen inter v))).2
        (jsSort (cmpShuffleP5 ρ) 0
          (videos.filter (fun v => !isSeen inter v))).1).1 ∧
    (applySmartRecommendationsP5 userInterests ρ videos inter).drop
        (videos.filter (fun v => !isSeen inter v)).length =
      (jsSort (cmpP5 userInterests ρ)
        (jsSort (cmpP5 userInterests ρ)
          (jsSort (cmpShuffleP5 ρ) 0
            (videos.filter (fun v => !isSeen inter v))).2
          (jsSort (cmpShuffleP5 ρ) 0
            (videos.filter (fun v => !isSeen inter v))).1).2
        (videos.filter (fun v => isSeen inter v))).1 := by
  rw [rankP5_eq userInterests ρ videos inter hv]
  have hlen : (jsSort (cmpP5 userInterests ρ)
      (jsSort (cmpShuffleP5 ρ) 0
        (videos.filter (fun v => !isSeen inter v))).2
      (jsSort (cmpShuffleP5 ρ) 0
        (videos.filter (fun v => !isSeen inter v))).1).1.length =
      (videos.filter (fun v => !isSeen inter v)).length := by
    rw [(jsSort_perm _ _ _).length_eq]
    exact (jsSort_perm _ _ _).length_eq
  exact ⟨List.take_left' hlen, List.drop_left' hlen⟩

/-! ## Concrete fixtures used by the counterexamples -/

/-- A trending short (bonus tier `5` under an empty interest list). -/
def vidTrend : Video := ⟨"a", "http://a", "mystery", true, "Shorts"⟩

/-- A non-trending short (bonus tier `0`). -/
def vidPlain : Video := ⟨"b", "http://b", "comedy", false, "Shorts"⟩

/-- A second non-trending short. -/
def vidPlain2 : Video := ⟨"c", "http://c", "nature", false, "Shorts"⟩

/-- The empty interaction state. -/
def noInteractions : UserInteractions := ⟨[], [], []⟩

/-- A legal `Math.random()` stream whose first draw is `0.9`. -/
def drawHi : RandStream := fun k => if k = 0 then 9/10 else 0

/-- The all-zero `Math.random()` stream. -/
def drawZero : RandStream := fun _ => 0

theorem drawHi_bounded : StreamBounded drawHi := by
  intro k
  by_cases h : k = 0 <;> simp [drawHi, h] <;> norm_num

theorem drawZero_bounded : StreamBounded drawZero := by
  intro k
  simp [drawZero]

/-- C4 counterexample: the rankers are not deterministic functions of
`(pool, interactions)` alone.  Two legal `Math.random()` streams (all draws
in `[0,1)`) produce different output orders on the same two-video pool with
the same (empty) interaction state, in both ranker variants — the scoring
comparator draws fresh randomness on every call, and `part_005` additionally
always shuffles the unseen partition; no `shuffleUnseen` flag exists to turn
this off. -/
theorem ranker_nondeterminism_cex :
    StreamBounded drawZero ∧ StreamBounded drawHi ∧
    applySmartRecommendationsMC [] drawZero [vidPlain, vidPlain2]
        noInteractions = [vidPlain, vidPlain2] ∧
    applySmartRecommendationsMC [] drawHi [vidPlain, vidPlain2]
        noInteractions = [vidPlain2, vidPlain] ∧
    applySmartRecommendationsMC [] drawZero [vidPlain, vidPlain2]
        noInteractions ≠
      applySmartRecommendationsMC [] drawHi [vidPlain, vidPlain2]
        noInteractions ∧
    applySmartRecommendationsP5 [] drawZero [vidPlain, vidPlain2]
        noInteractions ≠
      applySmartRecommendationsP5 [] drawHi [vidPlain, vidPlain2]
        noInteractions := by
  have h₁ : applySmartRecommendationsMC [] drawZero [vidPlain, vidPlain2]
      noInteractions = [vidPlain, vidPlain2] := by
    rw [rankMC_eq [] drawZero [vidPlain, vidPlain2] noInteractions (by simp)]
    norm_num [jsSort, msortF, mergeF, cmpMC, scoreVideoMC,
      drawZero, vidPlain, vidPlain2, noInteractions, isSeen, seenIdsOf,
      List.filter]
  have h₂ : applySmartRecommendationsMC [] drawHi [vidPlain, vidPlain2]
      noInteractions = [vidPlain2, vidPlain] := by
    rw [rankMC_eq [] drawHi [vidPlain, vidPlain2] noInteractions (by simp)]
    norm_num [jsSort, msortF, mergeF, cmpMC, scoreVideoMC,
      drawHi, vidPlain, vidPlain2, noInteractions, isSeen, seenIdsOf,
      List.filter]
  have h₃ : applySmartRecommendationsP5 [] drawZero [vidPlain, vidPlain2]
      noInteractions = [vidPlain, vidPlain2] := by
    rw [rankP5_eq [] drawZero [vidPlain, vidPlain2] noInteractions (by simp)]
    norm_num [jsSort, msortF, mergeF, cmpP5, cmpShuffleP5, scoreVideoP5,
      drawZero, vidPlain, vidPlain2, noInteractions, isSeen, seenIdsOf,
      List.filter]
  have h₄ : applySmartRecommendationsP5 [] drawHi [vidPlain, vidPlain2]
      noInteractions = [vidPlain2, vidPlain] := by
    rw [rankP5_eq [] drawHi [vidPlain, vidPlain2] noInteractions (by simp)]
    norm_num [jsSort, msortF, mergeF, cmpP5, cmpShuffleP5, scoreVideoP5,
      drawHi, vidPlain, vidPlain2, noInteractions, isSeen, seenIdsOf,
      List.filter]
  refine ⟨drawZero_bounded, drawHi_bounded, h₁, h₂, ?_, ?_⟩
  · rw [h₁, h₂]; simp [vidPlain, vidPlain2]
  · rw [h₃, h₄]; simp [vidPlain, vidPlain2]

/-- C4 (amended): the ranker is deterministic only once the random draws are
fixed — it is a pure function of `(pool, interactions, random stream)` — and
what IS stable across re-rankings with different draws is everything except
the within-partition order: for any two random streams, both ranker
variants produce permutations of each other in which the unseen block
(first `k` slots, `k` = number of unseen pool videos) holds the same video
multiset, and likewise the seen block.  The within-partition order itself is
randomized on every call (see the counterexample), since both variants draw
fresh randomness in the score comparator and no `shuffleUnseen` option
exists in the code. -/
theorem ranker_stable_modulo_draws (userInterests : List String)
    (ρ₁ ρ₂ : RandStream) (videos : List Video) (inter : UserInteractions) :
    ((applySmartRecommendationsMC userInterests ρ₁ videos inter).Perm
        (applySmartRecommendationsMC userInterests ρ₂ videos inter) ∧
      ((applySmartRecommendationsMC userInterests ρ₁ videos inter).take
          (videos.filter (fun v => !isSeen inter v)).length).Perm
        ((applySmartRecommendationsMC userInterests ρ₂ videos inter).take
          (videos.filter (fun v => !isSeen inter v)).length) ∧
      ((applySmartRecommendationsMC userInterests ρ₁ videos inter).drop
          (videos.filter (fun v => !isSeen inter v)).length).Perm
        ((applySmartRecommendationsMC userInterests ρ₂ videos inter).drop
          (videos.filter (fun v => !isSeen inter v)).length)) ∧
    ((applySmartRecommendationsP5 userInterests ρ₁ videos inter).Perm
        (applySmartRecommendationsP5 userInterests ρ₂ videos inter) ∧
      ((applySmartRecommendationsP5 userInterests ρ₁ videos inter).take
          (videos.filter (fun v => !isSeen inter v)).length).Perm
        ((applySmartRecommendationsP5 userInterests ρ₂ videos inter).take
          (videos.filter (fun v => !isSeen inter v)).length) ∧
      ((applySmartRecommendationsP5 userInterests ρ₁ videos inter).drop
          (videos.filter (fun v => !isSeen inter v)).length).Perm
        ((applySmartRecommendationsP5 userInterests ρ₂ videos inter).drop
          (videos.filter (fun v => !isSeen inter v)).length)) := by
  by_cases hv : videos = []
  · subst hv
    simp [applySmartRecommendationsMC, applySmartRecommendationsP5]
  · refine ⟨⟨?_, ?_, ?_⟩, ⟨?_, ?_, ?_⟩⟩
    · exact ((ranker_shape userInterests ρ₁ videos inter).1.1).trans
        ((ranker_shape userInterests ρ₂ videos inter).1.1).symm
    · rw [(rankMC_take_drop userInterests ρ₁ videos inter hv).1,
        (rankMC_take_drop userInterests ρ₂ videos inter hv).1]
      exact (jsSort_perm _ _ _).trans (jsSort_perm _ _ _).symm
    · rw [(rankMC_take_drop userInterests ρ₁ videos inter hv).2,
        (rankMC_take_drop userInterests ρ₂ videos inter hv).2]
      exact (jsSort_perm _ _ _).trans (jsSort_perm _ _ _).symm
    · exact ((ranker_shape userInterests ρ₁ videos inter).2.1).trans
        ((ranker_shape userInterests ρ₂ videos inter).2.1).symm
    · rw [(rankP5_take_drop userInterests ρ₁ videos inter hv).1,
        (rankP5_take_drop userInterests ρ₂ videos inter hv).1]
      exact ((jsSort_perm _ _ _).trans (jsSort_perm _ _ _)).trans
        (((jsSort_perm _ _ _).trans (jsSort_perm _ _ _)).symm)
    · rw [(rankP5_take_drop userInterests ρ₁ videos inter hv).2,
        (rankP5_take_drop userInterests ρ₂ videos inter hv).2]
      exact (jsSort_perm _ _ _).trans (jsSort_perm _ _ _).symm

/-- C5 counterexample: in the `MainContent.tsx` scoring
(`Math.random() * 10` base term, interest bonus `20`, trending bonus `5`),
the randomized term is NOT strictly smaller than the trending bonus: a legal
draw of `0.9` contributes `9 > 5`, and with such draws the non-trending
(lower-tier) video sorts before the trending (higher-tier) one. -/
theorem scoring_tier_cex :
    StreamBounded drawHi ∧
    baseScore [] vidPlain < baseScore [] vidTrend ∧
    5 < scoreVideoMC [] vidPlain (9/10) - baseScore [] vidPlain ∧
    applySmartRecommendationsMC [] drawHi [vidTrend, vidPlain]
        noInteractions = [vidPlain, vidTrend] := by
  refine ⟨drawHi_bounded, ?_, ?_, ?_⟩
  · norm_num [baseScore, vidPlain, vidTrend]
  · norm_num [scoreVideoMC, baseScore, vidPlain]
  · rw [rankMC_eq [] drawHi [vidTrend, vidPlain] noInteractions (by simp)]
    norm_num [jsSort, msortF, mergeF, cmpMC, scoreVideoMC,
      drawHi, vidTrend, vidPlain, noInteractions, isSeen, seenIdsOf,
      List.filter]

/-- C5 (amended): the tie-breaker claim holds for the `part_005` variant of
the scoring, not for the `MainContent.tsx` one.  In `part_005`'s
`scoreVideo`, the randomized term `Math.random() * 5` is non-negative and
strictly smaller than `5` — hence strictly smaller than both the trending
bonus (`5`) and the interest bonus (`20`) — so a video in a strictly higher
bonus tier scores strictly higher for every pair of legal draws, and in the
ranked output each sorted partition (unseen block, seen block) is ordered by
descending bonus tier regardless of the random draws.  (In
`MainContent.tsx`'s `scoreVideo` the term `Math.random() * 10` can reach `9`
and reorder across the trending tier — see the counterexample.) -/
theorem scoring_tier_separation_p5 (userInterests : List String)
    (ρ : RandStream) (videos : List Video) (inter : UserInteractions)
    (hρ : StreamBounded ρ) :
    (∀ (v : Video) (r : ℚ), 0 ≤ r → r < 1 →
        0 ≤ scoreVideoP5 userInterests v r - baseScore userInterests v ∧
        scoreVideoP5 userInterests v r - baseScore userInterests v < 5) ∧
    (∀ (a b : Video) (ra rb : ℚ), 0 ≤ ra → ra < 1 → 0 ≤ rb → rb < 1 →
        baseScore userInterests a < baseScore userInterests b →
        scoreVideoP5 userInterests a ra < scoreVideoP5 userInterests b rb) ∧
    TierSorted (baseScore userInterests)
      ((applySmartRecommendationsP5 userInterests ρ videos inter).take
        (videos.filter (fun v => !isSeen inter v)).length) ∧
    TierSorted (baseScore userInterests)
      ((applySmartRecommendationsP5 userInterests ρ videos inter).drop
        (videos.filter (fun v => !isSeen inter v)).length) := by
  refine ⟨?_, ?_, ?_, ?_⟩
  · intro v r h0 h1
    constructor
    · simp only [scoreVideoP5, baseScore]
      linarith
    · simp only [scoreVideoP5, baseScore]
      linarith
  · intro a b ra rb ha0 ha1 hb0 hb1 hab
    have := baseScore_gap userInterests a b hab
    simp only [scoreVideoP5, baseScore] at *
    linarith
  · by_cases hv : videos = []
    · subst hv
      simpa [applySmartRecommendationsP5, TierSorted] using List.Pairwise.nil
    · rw [(rankP5_take_drop userInterests ρ videos inter hv).1]
      exact jsSort_tierSorted _ _ (cmpP5_respectsBase userInterests ρ hρ) _ _
  · by_cases hv : videos = []
    · subst hv
      simpa [applySmartRecommendationsP5, TierSorted] using List.Pairwise.nil
    · rw [(rankP5_take_drop userInterests ρ videos inter hv).2]
      exact jsSort_tierSorted _ _ (cmpP5_respectsBase userInterests ρ hρ) _ _

/-- Witness for the amended C5 theorem at a concrete input. -/
theorem scoring_tier_separation_p5_witness :
    StreamBounded drawZero ∧
    TierSorted (baseScore [])
      ((applySmartRecommendationsP5 [] drawZero [vidTrend, vidPlain]
          noInteractions).take
        (([vidTrend, vidPlain] : List Video).filter
          (fun v => !isSeen noInteractions v)).length) :=
  ⟨drawZero_bounded,
    (scoring_tier_separation_p5 [] drawZero [vidTrend, vidPlain]
      noInteractions drawZero_bounded).2.2.1⟩

/-! ## Section allocators

Three allocation passes exist in the repository:

* `getUniqueBatch` (`src/MainContent.tsx:568-584` and
  `src/unnamed/part_003:559-570`): shared `usedIds` set, unique picks only,
  NO recycling — a section can come up short once its pool is exhausted.
* `pickVideos` inside `distributedContent`
  (`src/src/CustomDynamicLayout.tsx:28-69`): shared `usedIds` set, unique
  picks first, then an order-randomized recycling backfill drawn from the
  section's full pool minus the rows already selected for this section;
  backfilled picks are not marked used.
* `getVideosForSection` (`src/CustomDynamicLayout.tsx:29-37`): no used set
  at all — every section independently shuffles its type pool and slices.

The random shuffle `sort(() => 0.5 - Math.random())` is modelled by an
explicit `shuffle` function parameter (theorems assume at most that it
permutes its input). -/

/-- `getUniqueBatch` of `src/MainContent.tsx:569-574` / `part_003:559-570`:
filter not-yet-used, take `count`, mark the picks used.  The shared mutable
`usedIds` set is threaded explicitly. -/
def getUniqueBatch (usedIds : List String) (source : List Video)
    (count : ℕ) : List Video × List String :=
  let available := source.filter (fun v => decide (v.id ∉ usedIds))
  let selected := available.take count
  (selected, usedIds ++ selected.map (·.id))

/-- The fixed home-layout allocation pass of `src/MainContent.tsx:566-597`:
nine `getUniqueBatch` calls against `shortsOnly`/`longsOnly` with the
literal counts of the source, sharing one `usedIds` set. -/
def homeLayoutBatches (videos : List Video) : List (List Video) :=
  let shortsOnly := videos.filter (fun v => v.video_type == "Shorts")
  let longsOnly := videos.filter (fun v => v.video_type == "Long Video")
  let b1 := getUniqueBatch [] shortsOnly 12
  let b2 := getUniqueBatch b1.2 longsOnly 8
  let b3 := getUniqueBatch b2.2 shortsOnly 4
  let b4 := getUniqueBatch b3.2 longsOnly 2
  let b5 := getUniqueBatch b4.2 shortsOnly 12
  let b6 := getUniqueBatch b5.2 longsOnly 8
  let b7 := getUniqueBatch b6.2 shortsOnly 4
  let b8 := getUniqueBatch b7.2 shortsOnly 12
  let b9 := getUniqueBatch b8.2 longsOnly 8
  [b1.1, b2.1, b3.1, b4.1, b5.1, b6.1, b7.1, b8.1, b9.1]

/-- `pickVideos` of `src/src/CustomDynamicLayout.tsx:36-52`: unique picks
first (marked used), then — only if short of `count` — an order-randomized
backfill from the pool minus this section's own picks, NOT marked used. -/
def pickVideos (shuffle : List Video → List Video) (usedIds : List String)
    (pool : List Video) (count : ℕ) : List Video × List String :=
  if pool = [] then ([], usedIds) else
    let available := pool.filter (fun v => decide (v.id ∉ usedIds))
    let selected := available.take count
    let used' := usedIds ++ selected.map (·.id)
    if selected.length < count then
      let needed := count - selected.length
      let recycled := shuffle (pool.filter (fun v => decide (v ∉ selected)))
      (selected ++ recycled.take needed, used')
    else (selected, used')

/-- The section kinds dispatched by `distributedContent`
(`src/src/CustomDynamicLayout.tsx:54-66`). -/
inductive SectionType where
  | long_video
  | shorts_grid
  | long_slider
  | slider_left
  | slider_right
  deriving DecidableEq, Repr

/-- The per-section item count demanded by each section kind (source
literals `1`, `4`, `10`, `10`, `10`). -/
def sectionDemand : SectionType → ℕ
  | .long_video => 1
  | .shorts_grid => 4
  | .long_slider => 10
  | .slider_left => 10
  | .slider_right => 10

/-- The candidate pool each section kind draws from: `longsOnly`,
`shortsOnly`, or — for the two slider kinds — the whole `videos` input. -/
def sectionPool (videos : List Video) : SectionType → List Video
  | .long_video => videos.filter (fun v => v.video_type == "Long Video")
  | .shorts_grid => videos.filter (fun v => v.video_type == "Shorts")
  | .long_slider => videos.filter (fun v => v.video_type == "Long Video")
  | .slider_left => videos
  | .slider_right => videos

/-- `distributedContent` of `src/src/CustomDynamicLayout.tsx:28-69`:
process the sections in order, sharing one `usedIds` set across the pass;
each section's batch comes from `pickVideos` on its kind's pool and
count. -/
def distributedContent (shuffle : List Video → List Video)
    (videos : List Video) :
    List SectionType → List String → List (List Video) × List String
  | [], usedIds => ([], usedIds)
  | s :: rest, usedIds =>
      let pb := pickVideos shuffle usedIds (sectionPool videos s)
        (sectionDemand s)
      let rb := distributedContent shuffle videos rest pb.2
      (pb.1 :: rb.1, rb.2)

/-- In a duplicate-free list, dropping the elements that occur in `s`
removes at most `s.length` elements. -/
theorem length_filter_not_mem_ge {l s : List Video} (hl : l.Nodup) :
    l.length - s.length ≤ (l.filter (fun x => decide (x ∉ s))).length := by
  have hsplit := List.length_eq_length_filter_add (l := l)
    (fun x => decide (x ∈ s))
  have hsub : (l.filter (fun x => decide (x ∈ s))).length ≤ s.length := by
    refine List.Subperm.length_le (List.subperm_of_subset (hl.filter _) ?_)
    intro x hx
    simpa using (List.of_mem_filter hx)
  have hneg : (l.filter (fun x => !decide (x ∈ s))) =
      (l.filter (fun x => decide (x ∉ s))) := by
    simp [decide_not]
  rw [hneg] at hsplit
  omega

/-- Fixture factory: a short-form video with the given id. -/
def mkShort (n : String) : Video := ⟨n, "http://v", "misc", false, "Shorts"⟩

/-- Fixture factory: a long-form video with the given id. -/
def mkLong (n : String) : Video := ⟨n, "http://v", "misc", false, "Long Video"⟩

/-- C3 counterexample: not every allocation pass in the repository backfills.
In the `MainContent.tsx:566-597` home pass (`getUniqueBatch`, no recycling),
with a pool of 4 distinct shorts the first marquee section consumes all of
them and the featured-shorts section (the third call, declared `count = 4`)
receives 0 videos even though the pool holds 4 videos of its required type —
its batch does not have exactly `count` entries. -/
theorem allocator_completeness_cex :
    4 ≤ (([mkShort "s1", mkShort "s2", mkShort "s3", mkShort "s4"] :
        List Video).filter (fun v => v.video_type == "Shorts")).length ∧
    ((homeLayoutBatches
        [mkShort "s1", mkShort "s2", mkShort "s3", mkShort "s4"]).getD 2
      []).length = 0 ∧
    ¬ ((homeLayoutBatches
        [mkShort "s1", mkShort "s2", mkShort "s3", mkShort "s4"]).getD 2
      []).length = 4 := by
  refine ⟨by decide, by decide, by decide⟩

/-- C3 (amended): the backfill contract holds for the allocation pass of
`src/src/CustomDynamicLayout.tsx` (`pickVideos`), the allocator the spec's
§4.2 describes: whenever the section's type pool holds at least `count`
distinct videos, the section's batch has exactly `count` entries — the
shortfall beyond the unique picks being backfilled from the pool minus this
section's own picks, for any permutation the backfill shuffle produces —
every batch entry comes from the pool, and the shared used set receives
exactly the first-pass unique picks, never the backfilled ones.  (The
`getUniqueBatch` passes of `MainContent.tsx`/`part_003` do not backfill and
can come up short — see the counterexample.) -/
theorem pickVideos_complete (shuffle : List Video → List Video)
    (usedIds : List String) (pool : List Video) (count : ℕ)
    (hsh : ∀ l, (shuffle l).Perm l)
    (hnd : (pool.map Video.id).Nodup)
    (hcount : count ≤ pool.length) :
    (pickVideos shuffle usedIds pool count).1.length = count ∧
    (pickVideos shuffle usedIds pool count).2 =
      usedIds ++ ((pool.filter (fun v => decide (v.id ∉ usedIds))).take
        count).map (·.id) ∧
    ∀ v ∈ (pickVideos shuffle usedIds pool count).1, v ∈ pool := by
  by_cases hp : pool = []
  · subst hp
    simp only [List.length_nil, Nat.le_zero] at hcount
    subst hcount
    simp [pickVideos]
  · have hsel_sub : ∀ v ∈ (pool.filter
        (fun v => decide (v.id ∉ usedIds))).take count, v ∈ pool := by
      intro v hv
      exact List.mem_of_mem_filter (List.take_subset _ _ hv)
    by_cases hshort : ((pool.filter
        (fun v => decide (v.id ∉ usedIds))).take count).length < count
    · have heq : pickVideos shuffle usedIds pool count =
          (((pool.filter (fun v => decide (v.id ∉ usedIds))).take count) ++
            (shuffle (pool.filter (fun v => decide (v ∉
              (pool.filter (fun v => decide (v.id ∉ usedIds))).take
                count)))).take
              (count - ((pool.filter (fun v => decide (v.id ∉
                usedIds))).take count).length),
            usedIds ++ (((pool.filter (fun v => decide (v.id ∉
              usedIds))).take count).map (·.id))) := by
        simp only [pickVideos]
        rw [if_neg hp, if_pos hshort]
      have hreclen : (shuffle (pool.filter (fun v => decide (v ∉
          (pool.filter (fun v => decide (v.id ∉ usedIds))).take
            count)))).length =
          (pool.filter (fun v => decide (v ∉
            (pool.filter (fun v => decide (v.id ∉ usedIds))).take
              count))).length :=
        (hsh _).length_eq
      have hge := length_filter_not_mem_ge
        (l := pool)
        (s := (pool.filter (fun v => decide (v.id ∉ usedIds))).take count)
        (hnd.of_map Video.id)
      refine ⟨?_, ?_, ?_⟩
      · rw [heq]
        simp only [List.length_append, List.length_take, hreclen]
        simp only [List.length_take] at hshort hge
        omega
      · rw [heq]
      · rw [heq]
        intro v hv
        rcases List.mem_append.mp hv with hv₁ | hv₂
        · exact hsel_sub v hv₁
        · have := (hsh _).mem_iff.mp (List.take_subset _ _ hv₂)
          exact List.mem_of_mem_filter this
    · have heq : pickVideos shuffle usedIds pool count =
          (((pool.filter (fun v => decide (v.id ∉ usedIds))).take count),
            usedIds ++ (((pool.filter (fun v => decide (v.id ∉
              usedIds))).take count).map (·.id))) := by
        simp only [pickVideos]
        rw [if_neg hp, if_neg hshort]
      refine ⟨?_, ?_, ?_⟩
      · rw [heq]
        simp only [List.length_take] at hshort ⊢
        omega
      · rw [heq]
      · rw [heq]
        exact hsel_sub

/-- Witness for the amended C3 theorem: a concrete section over a 2-video
pool with one id already used; its batch still has exactly 2 entries and the
backfilled pick is not marked used. -/
theorem pickVideos_complete_witness :
    ((fun (l : List Video) => l) = (fun l => l) ∧
      (([mkShort "s1", mkShort "s2"] : List Video).map Video.id).Nodup ∧
      2 ≤ ([mkShort "s1", mkShort "s2"] : List Video).length) ∧
    ((pickVideos (fun l => l) ["s1"] [mkShort "s1", mkShort "s2"] 2).1.length
        = 2 ∧
      (pickVideos (fun l => l) ["s1"] [mkShort "s1", mkShort "s2"] 2).2 =
        ["s1"] ++ ((([mkShort "s1", mkShort "s2"] : List Video).filter
          (fun v => decide (v.id ∉ (["s1"] : List String)))).take 2).map
            (·.id) ∧
      ∀ v ∈ (pickVideos (fun l => l) ["s1"] [mkShort "s1", mkShort "s2"]
        2).1, v ∈ ([mkShort "s1", mkShort "s2"] : List Video)) :=
  ⟨⟨rfl, by decide, by decide⟩,
    pickVideos_complete (fun l => l) ["s1"] [mkShort "s1", mkShort "s2"] 2
      (fun l => List.Perm.refl l) (by decide) (by decide)⟩

/-- C10: each single `pickVideos` batch is duplicate-free — even when the
recycling backfill triggers, the backfill draws only from pool rows not
already selected for this same section, so no video id repeats inside one
section's batch (for a duplicate-free pool and any permutation the backfill
shuffle produces); duplicates remain possible only across sections. -/
theorem pickVideos_batch_distinct (shuffle : List Video → List Video)
    (usedIds : List String) (pool : List Video) (count : ℕ)
    (hsh : ∀ l, (shuffle l).Perm l)
    (hnd : (pool.map Video.id).Nodup) :
    ((pickVideos shuffle usedIds pool count).1.map (·.id)).Nodup := by
  by_cases hp : pool = []
  · simp [pickVideos, hp]
  · have hsel_nd : ((((pool.filter (fun v => decide (v.id ∉
        usedIds))).take count)).map (·.id)).Nodup := by
      refine List.Nodup.sublist (List.Sublist.map _ ?_) hnd
      exact ((List.take_sublist _ _).trans (List.filter_sublist _))
    by_cases hshort : ((pool.filter
        (fun v => decide (v.id ∉ usedIds))).take count).length < count
    · have heq : (pickVideos shuffle usedIds pool count).1 =
          (((pool.filter (fun v => decide (v.id ∉ usedIds))).take count) ++
            (shuffle (pool.filter (fun v => decide (v ∉
              (pool.filter (fun v => decide (v.id ∉ usedIds))).take
                count)))).take
              (count - ((pool.filter (fun v => decide (v.id ∉
                usedIds))).take count).length)) := by
        simp only [pickVideos]
        rw [if_neg hp, if_pos hshort]
      rw [heq, List.map_append]
      have hrec_nd : ((shuffle (pool.filter (fun v => decide (v ∉
          (pool.filter (fun v => decide (v.id ∉ usedIds))).take
            count)))).map (·.id)).Nodup := by
        refine (List.Perm.nodup_iff (List.Perm.map _ (hsh _))).mpr ?_
        refine List.Nodup.sublist (List.Sublist.map _ ?_) hnd
        exact List.filter_sublist _
      refine List.Nodup.append hsel_nd
        (List.Nodup.sublist (List.Sublist.map _ (List.take_sublist _ _))
          hrec_nd) ?_
      intro a ha hb
      rcases List.mem_map.mp ha with ⟨v, hv, rfl⟩
      rcases List.mem_map.mp hb with ⟨w, hw, hwid⟩
      have hw' : w ∈ pool.filter (fun v => decide (v ∉
          (pool.filter (fun v => decide (v.id ∉ usedIds))).take count)) :=
        (hsh _).mem_iff.mp (List.take_subset _ _ hw)
      have hw_pool : w ∈ pool := List.mem_of_mem_filter hw'
      have hw_not_sel : w ∉ (pool.filter (fun v => decide (v.id ∉
          usedIds))).take count := by
        have := List.of_mem_filter hw'
        simpa using this
      have hv_pool : v ∈ pool :=
        List.mem_of_mem_filter (List.take_subset _ _ hv)
      have : v = w := List.inj_on_of_nodup_map hnd hv_pool hw_pool
        hwid.symm
      exact hw_not_sel (this ▸ hv)
    · have heq : (pickVideos shuffle usedIds pool count).1 =
          ((pool.filter (fun v => decide (v.id ∉ usedIds))).take count) := by
        simp only [pickVideos]
        rw [if_neg hp, if_neg hshort]
      rw [heq]
      exact hsel_nd

/-- Witness for C10 at a concrete input (pool of 2 distinct shorts, one id
already used, identity shuffle, recycling triggered). -/
theorem pickVideos_batch_distinct_witness :
    ((fun (l : List Video) => l) = (fun l => l) ∧
      (([mkShort "s1", mkShort "s2"] : List Video).map Video.id).Nodup) ∧
    ((pickVideos (fun l => l) ["s1", "s2"] [mkShort "s1", mkShort "s2"]
      2).1.map (·.id)).Nodup :=
  ⟨⟨rfl, by decide⟩,
    pickVideos_batch_distinct (fun l => l) ["s1", "s2"]
      [mkShort "s1", mkShort "s2"] 2 (fun l => List.Perm.refl l) (by decide)⟩

/-- A mixed pool: ten distinct shorts followed by four distinct longs. -/
def poolMix : List Video :=
  (["s1", "s2", "s3", "s4", "s5", "s6", "s7", "s8", "s9", "s10"].map
    mkShort) ++ (["l1", "l2", "l3", "l4"].map mkLong)

/-- C2 counterexample: in the `distributedContent` pass the per-type supply
condition does NOT prevent cross-section duplicates, because the two slider
kinds draw on the whole mixed pool, which overlaps the shorts pool.  With 10
shorts and 4 longs, sections `[slider_left, shorts_grid]` satisfy the
claim's hypothesis (shorts demand 4 ≤ 10 distinct shorts; the slider's
mixed demand 10 ≤ 14 distinct videos), yet the slider consumes all ten
shorts and the shorts grid is forced into the recycling backfill: id "s1"
appears in both sections' batches (shuffle instantiated to a legal
permutation, the identity). -/
theorem allocator_uniqueness_cex :
    sectionDemand SectionType.shorts_grid ≤
      (sectionPool poolMix SectionType.shorts_grid).length ∧
    sectionDemand SectionType.slider_left ≤
      (sectionPool poolMix SectionType.slider_left).length ∧
    (poolMix.map Video.id).Nodup ∧
    "s1" ∈ (((distributedContent id poolMix
        [SectionType.slider_left, SectionType.shorts_grid] []).1.getD 0
      []).map Video.id) ∧
    "s1" ∈ (((distributedContent id poolMix
        [SectionType.slider_left, SectionType.shorts_grid] []).1.getD 1
      []).map Video.id) := by
  refine ⟨by decide, by decide, by decide, by decide, by decide⟩

/-- `true` exactly for the two mixed-pool slider section kinds. -/
def isMixedSection : SectionType → Bool
  | .slider_left => true
  | .slider_right => true
  | _ => false

/-- `true` exactly for the section kinds drawing on the shorts pool. -/
def isShortsSection : SectionType → Bool
  | .shorts_grid => true
  | _ => false

/-- `true` exactly for the section kinds drawing on the longs pool. -/
def isLongSection : SectionType → Bool
  | .long_video => true
  | .long_slider => true
  | _ => false

/-- Total count demanded by the shorts-pool sections of a pass. -/
def shortsDemand (sections : List SectionType) : ℕ :=
  ((sections.filter isShortsSection).map sectionDemand).sum

/-- Total count demanded by the longs-pool sections of a pass. -/
def longsDemand (sections : List SectionType) : ℕ :=
  ((sections.filter isLongSection).map sectionDemand).sum

/-- Every section kind demands at least one video. -/
theorem sectionDemand_pos (s : SectionType) : 1 ≤ sectionDemand s := by
  cases s <;> simp [sectionDemand]

/-- When the not-yet-used part of the pool already covers `count`,
`pickVideos` is a pure unique-slice: no recycling happens. -/
theorem pickVideos_no_recycle (shuffle : List Video → List Video)
    (usedIds : List String) (pool : List Video) (count : ℕ)
    (hc : count ≤ (pool.filter (fun v => decide (v.id ∉
      usedIds))).length) :
    pickVideos shuffle usedIds pool count =
      ((pool.filter (fun v => decide (v.id ∉ usedIds))).take count,
        usedIds ++ ((pool.filter (fun v => decide (v.id ∉
          usedIds))).take count).map (·.id)) := by
  by_cases hp : pool = []
  · subst hp
    simp only [List.filter_nil, List.length_nil, Nat.le_zero] at hc
    subst hc
    simp [pickVideos]
  · have hns : ¬ ((pool.filter (fun v => decide (v.id ∉
        usedIds))).take count).length < count := by
      simp only [List.length_take]
      omega
    simp only [pickVideos]
    rw [if_neg hp, if_neg hns]

/-- Filtering an id-duplicate-free concatenation by "id not among the left
part's ids" leaves exactly the right part. -/
theorem filter_not_mem_ids_of_partition (T D : List Video)
    (hnd : ((T ++ D).map Video.id).Nodup) :
    (T ++ D).filter (fun v => decide (v.id ∉ T.map Video.id)) = D := by
  rw [List.filter_append]
  have h₁ : T.filter (fun v => decide (v.id ∉ T.map Video.id)) = [] := by
    rw [List.filter_eq_nil]
    intro v hv
    simp [List.mem_map_of_mem Video.id hv]
  have h₂ : D.filter (fun v => decide (v.id ∉ T.map Video.id)) = D := by
    rw [List.filter_eq_self]
    intro v hv
    simp only [decide_eq_true_eq]
    intro hcon
    rw [List.map_append] at hnd
    exact List.disjoint_of_nodup_append hnd hcon
      (List.mem_map_of_mem _ hv)
  rw [h₁, h₂, List.nil_append]

/-- Filtering out (by id) the ids of the first `c` elements of an
id-duplicate-free list leaves exactly the remainder of the list. -/
theorem filter_not_mem_take_ids {A : List Video} (c : ℕ)
    (hnd : (A.map Video.id).Nodup) :
    A.filter (fun v => decide (v.id ∉ (A.take c).map Video.id)) =
      A.drop c := by
  have h := filter_not_mem_ids_of_partition (A.take c) (A.drop c)
    (by rw [List.take_append_drop]; exact hnd)
  rw [List.take_append_drop] at h
  exact h

/-- Splitting a not-used filter over an extended used set. -/
theorem filter_not_mem_append_eq (B : List Video) (used extra : List String) :
    B.filter (fun v => decide (v.id ∉ used ++ extra)) =
      (B.filter (fun v => decide (v.id ∉ used))).filter
        (fun v => decide (v.id ∉ extra)) := by
  rw [List.filter_filter]
  refine (List.filter_congr ?_)
  intro x hx
  by_cases h1 : x.id ∈ used <;> by_cases h2 : x.id ∈ extra <;>
    simp [List.mem_append, h1, h2]

/-- Extending the used set only by ids foreign to a pool leaves that pool's
not-used filter unchanged. -/
theorem filter_not_mem_append_of_disjoint (B : List Video)
    (used extra : List String) (h : ∀ x ∈ B, x.id ∉ extra) :
    B.filter (fun v => decide (v.id ∉ used ++ extra)) =
      B.filter (fun v => decide (v.id ∉ used)) := by
  refine (List.filter_congr ?_)
  intro x hx
  simp [List.mem_append, h x hx]

/-- In an id-duplicate-free video list, a short and a long never share an
id. -/
theorem pools_id_disjoint {videos : List Video}
    (hnd : (videos.map Video.id).Nodup) {x y : Video}
    (hx : x ∈ videos.filter (fun v => v.video_type == "Shorts"))
    (hy : y ∈ videos.filter (fun v => v.video_type == "Long Video")) :
    x.id ≠ y.id := by
  intro hxy
  have hx' := List.of_mem_filter hx
  have hy' := List.of_mem_filter hy
  have hxe : x = y := List.inj_on_of_nodup_map hnd
    (List.mem_of_mem_filter hx) (List.mem_of_mem_filter hy) hxy
  subst hxe
  simp only [beq_iff_eq] at hx' hy'
  rw [hx'] at hy'
  exact absurd hy' (by decide)

/-- One no-recycle `pickVideos` step: the batch is the `count`-prefix of the
not-used pool slice, the used set grows by exactly those ids, and the pool's
not-used count shrinks by exactly `count`. -/
theorem pickVideos_step (shuffle : List Video → List Video)
    (P : List Video) (usedIds : List String) (c : ℕ)
    (hndP : (P.map Video.id).Nodup)
    (hc : c ≤ (P.filter (fun v => decide (v.id ∉ usedIds))).length) :
    (pickVideos shuffle usedIds P c).1 =
      (P.filter (fun v => decide (v.id ∉ usedIds))).take c ∧
    (pickVideos shuffle usedIds P c).2 =
      usedIds ++ ((P.filter (fun v => decide (v.id ∉ usedIds))).take
        c).map (·.id) ∧
    (P.filter (fun v => decide (v.id ∉
        (pickVideos shuffle usedIds P c).2))).length =
      (P.filter (fun v => decide (v.id ∉ usedIds))).length - c := by
  have heq := pickVideos_no_recycle shuffle usedIds P c hc
  refine ⟨by rw [heq], by rw [heq], ?_⟩
  rw [heq]
  have hsplit := filter_not_mem_append_eq P usedIds
    (((P.filter (fun v => decide (v.id ∉ usedIds))).take c).map (·.id))
  rw [hsplit]
  have hnd_avail : ((P.filter (fun v => decide (v.id ∉
      usedIds))).map Video.id).Nodup :=
    List.Nodup.sublist (List.Sublist.map _ (List.filter_sublist _)) hndP
  have hdrop := filter_not_mem_take_ids
    (A := P.filter (fun v => decide (v.id ∉ usedIds))) c hnd_avail
  rw [hdrop, List.length_drop]

/-- The allocation pass over explicit per-section demands: each demand pair
says which of the two type pools the section draws from (`true` = shorts
pool `S`, `false` = longs pool `L`) and how many items it wants;
one `usedIds` set is threaded through, exactly as `distributedContent`
does. -/
def allocRun (shuffle : List Video → List Video) (S L : List Video) :
    List (Bool × ℕ) → List String → List (List Video) × List String
  | [], usedIds => ([], usedIds)
  | (true, c) :: rest, usedIds =>
      let pb := pickVideos shuffle usedIds S c
      let rb := allocRun shuffle S L rest pb.2
      (pb.1 :: rb.1, rb.2)
  | (false, c) :: rest, usedIds =>
      let pb := pickVideos shuffle usedIds L c
      let rb := allocRun shuffle S L rest pb.2
      (pb.1 :: rb.1, rb.2)

/-- Total demand addressed to one of the two pools. -/
def demandSum (b : Bool) (demands : List (Bool × ℕ)) : ℕ :=
  ((demands.filter (fun d => d.1 == b)).map (·.2)).sum

/-- A pass with no mixed-pool section is the demand-level `allocRun` over
the shorts and longs pools. -/
theorem distributedContent_eq_allocRun (shuffle : List Video → List Video)
    (videos : List Video) :
    ∀ (sections : List SectionType) (usedIds : List String),
      (∀ s ∈ sections, isMixedSection s = false) →
      distributedContent shuffle videos sections usedIds =
        allocRun shuffle
          (videos.filter (fun v => v.video_type == "Shorts"))
          (videos.filter (fun v => v.video_type == "Long Video"))
          (sections.map (fun s => (isShortsSection s, sectionDemand s)))
          usedIds := by
  intro sections
  induction sections with
  | nil => intro usedIds _; simp [distributedContent, allocRun]
  | cons s rest ih =>
      intro usedIds hmix
      have hms := hmix s (List.mem_cons_self _ _)
      have hrest : ∀ x ∈ rest, isMixedSection x = false :=
        fun x hx => hmix x (List.mem_cons_of_mem _ hx)
      cases s
      · simp only [distributedContent, List.map_cons]
        rw [ih _ hrest]
        simp [sectionPool, sectionDemand, isShortsSection, allocRun]
      · simp only [distributedContent, List.map_cons]
        rw [ih _ hrest]
        simp [sectionPool, sectionDemand, isShortsSection, allocRun]
      · simp only [distributedContent, List.map_cons]
        rw [ih _ hrest]
        simp [sectionPool, sectionDemand, isShortsSection, allocRun]
      · simp [isMixedSection] at hms
      · simp [isMixedSection] at hms

/-- Unfolding `demandSum` over a cons. -/
theorem demandSum_cons (b : Bool) (d : Bool × ℕ) (rest : List (Bool × ℕ)) :
    demandSum b (d :: rest) =
      (if d.1 == b then d.2 else 0) + demandSum b rest := by
  simp only [demandSum, List.filter_cons]
  split_ifs <;> simp

/-- Unfolding `shortsDemand` over a cons. -/
theorem shortsDemand_cons (s : SectionType) (rest : List SectionType) :
    shortsDemand (s :: rest) =
      (if isShortsSection s then sectionDemand s else 0) +
        shortsDemand rest := by
  simp only [shortsDemand, List.filter_cons]
  split_ifs <;> simp

/-- Unfolding `longsDemand` over a cons. -/
theorem longsDemand_cons (s : SectionType) (rest : List SectionType) :
    longsDemand (s :: rest) =
      (if isLongSection s then sectionDemand s else 0) +
        longsDemand rest := by
  simp only [longsDemand, List.filter_cons]
  split_ifs <;> simp

/-- `shortsDemand` is the shorts-side demand sum of the demand-level pass. -/
theorem shortsDemand_eq_demandSum (sections : List SectionType) :
    shortsDemand sections = demandSum true
      (sections.map (fun s => (isShortsSection s, sectionDemand s))) := by
  induction sections with
  | nil => simp [shortsDemand, demandSum]
  | cons s rest ih =>
      rw [shortsDemand_cons, List.map_cons, demandSum_cons, ih]
      cases hb : isShortsSection s <;> simp [hb]

/-- For mixed-free passes, `longsDemand` is the longs-side demand sum. -/
theorem longsDemand_eq_demandSum (sections : List SectionType)
    (hmix : ∀ s ∈ sections, isMixedSection s = false) :
    longsDemand sections = demandSum false
      (sections.map (fun s => (isShortsSection s, sectionDemand s))) := by
  induction sections with
  | nil => simp [longsDemand, demandSum]
  | cons s rest ih =>
      have hms := hmix s (List.mem_cons_self _ _)
      have hrest : ∀ x ∈ rest, isMixedSection x = false :=
        fun x hx => hmix x (List.mem_cons_of_mem _ hx)
      rw [longsDemand_cons, List.map_cons, demandSum_cons, ih hrest]
      cases s
      · simp [isLongSection, isShortsSection]
      · simp [isLongSection, isShortsSection]
      · simp [isLongSection, isShortsSection]
      · simp [isMixedSection] at hms
      · simp [isMixedSection] at hms

/-- Invariant of the demand-level pass: when each pool can cover its total
demand from not-yet-used videos, every produced batch is made of videos
whose ids were unused at the start of the pass, and the batches are pairwise
id-disjoint. -/
theorem allocRun_inv (shuffle : List Video → List Video) (S L : List Video)
    (hndS : (S.map Video.id).Nodup) (hndL : (L.map Video.id).Nodup)
    (hdisj : ∀ x ∈ S, ∀ y ∈ L, x.id ≠ y.id) :
    ∀ (demands : List (Bool × ℕ)) (usedIds : List String),
      demandSum true demands ≤
        (S.filter (fun v => decide (v.id ∉ usedIds))).length →
      demandSum false demands ≤
        (L.filter (fun v => decide (v.id ∉ usedIds))).length →
      (∀ b ∈ (allocRun shuffle S L demands usedIds).1, ∀ v ∈ b,
        v.id ∉ usedIds) ∧
      (allocRun shuffle S L demands usedIds).1.Pairwise
        (fun b₁ b₂ => ∀ v ∈ b₁, ∀ w ∈ b₂, v.id ≠ w.id) := by
  intro demands
  induction demands with
  | nil =>
      intro usedIds _ _
      refine ⟨?_, by simp [allocRun]⟩
      intro b hb
      simp [allocRun] at hb
  | cons d rest ih =>
      obtain ⟨b, c⟩ := d
      intro usedIds hS hL
      cases b
      · have hS' : demandSum true rest ≤
            (S.filter (fun v => decide (v.id ∉ usedIds))).length := by
          rw [demandSum_cons] at hS
          simpa using hS
        have hL' : c + demandSum false rest ≤
            (L.filter (fun v => decide (v.id ∉ usedIds))).length := by
          rw [demandSum_cons] at hL
          simpa using hL
        have hc : c ≤ (L.filter (fun v => decide (v.id ∉
            usedIds))).length := by omega
        have step := pickVideos_step shuffle L usedIds c hndL hc
        have hLsupply : demandSum false rest ≤
            (L.filter (fun v => decide (v.id ∉
              (pickVideos shuffle usedIds L c).2))).length := by
          rw [step.2.2]
          omega
        have hout : ∀ x ∈ S, x.id ∉
            (((L.filter (fun v => decide (v.id ∉ usedIds))).take c).map
              (·.id) : List String) := by
          intro x hx hmem
          rcases List.mem_map.mp hmem with ⟨w, hw, hwid⟩
          have hwL : w ∈ L := List.mem_of_mem_filter
            (List.take_subset _ _ hw)
          exact hdisj x hx w hwL hwid.symm
        have hSsupply : demandSum true rest ≤
            (S.filter (fun v => decide (v.id ∉
              (pickVideos shuffle usedIds L c).2))).length := by
          rw [step.2.1, filter_not_mem_append_of_disjoint S usedIds _ hout]
          exact hS'
        have IH := ih (pickVideos shuffle usedIds L c).2 hSsupply hLsupply
        constructor
        · intro batch hbatch v hv
          simp only [allocRun] at hbatch
          rcases List.mem_cons.mp hbatch with rfl | hb'
          · rw [step.1] at hv
            have := List.of_mem_filter (List.take_subset _ _ hv)
            simpa using this
          · have hfresh := IH.1 batch hb' v hv
            rw [step.2.1] at hfresh
            intro hmem
            exact hfresh (List.mem_append_left _ hmem)
        · simp only [allocRun]
          refine List.pairwise_cons.mpr ⟨?_, IH.2⟩
          intro batch hb' v hv w hw
          rw [step.1] at hv
          have hv' : v.id ∈ (pickVideos shuffle usedIds L c).2 := by
            rw [step.2.1]
            exact List.mem_append_right _ (List.mem_map_of_mem _ hv)
          have hw' := IH.1 batch hb' w hw
          intro heq
          rw [heq] at hv'
          exact hw' hv'
      · have hS' : c + demandSum true rest ≤
            (S.filter (fun v => decide (v.id ∉ usedIds))).length := by
          rw [demandSum_cons] at hS
          simpa using hS
        have hL' : demandSum false rest ≤
            (L.filter (fun v => decide (v.id ∉ usedIds))).length := by
          rw [demandSum_cons] at hL
          simpa using hL
        have hc : c ≤ (S.filter (fun v => decide (v.id ∉
            usedIds))).length := by omega
        have step := pickVideos_step shuffle S usedIds c hndS hc
        have hSsupply : demandSum true rest ≤
            (S.filter (fun v => decide (v.id ∉
              (pickVideos shuffle usedIds S c).2))).length := by
          rw [step.2.2]
          omega
        have hout : ∀ x ∈ L, x.id ∉
            (((S.filter (fun v => decide (v.id ∉ usedIds))).take c).map
              (·.id) : List String) := by
          intro x hx hmem
          rcases List.mem_map.mp hmem with ⟨w, hw, hwid⟩
          have hwS : w ∈ S := List.mem_of_mem_filter
            (List.take_subset _ _ hw)
          exact hdisj w hwS x hx hwid
        have hLsupply : demandSum false rest ≤
            (L.filter (fun v => decide (v.id ∉
              (pickVideos shuffle usedIds S c).2))).length := by
          rw [step.2.1, filter_not_mem_append_of_disjoint L usedIds _ hout]
          exact hL'
        have IH := ih (pickVideos shuffle usedIds S c).2 hSsupply hLsupply
        constructor
        · intro batch hbatch v hv
          simp only [allocRun] at hbatch
          rcases List.mem_cons.mp hbatch with rfl | hb'
          · rw [step.1] at hv
            have := List.of_mem_filter (List.take_subset _ _ hv)
            simpa using this
          · have hfresh := IH.1 batch hb' v hv
            rw [step.2.1] at hfresh
            intro hmem
            exact hfresh (List.mem_append_left _ hmem)
        · simp only [allocRun]
          refine List.pairwise_cons.mpr ⟨?_, IH.2⟩
          intro batch hb' v hv w hw
          rw [step.1] at hv
          have hv' : v.id ∈ (pickVideos shuffle usedIds S c).2 := by
            rw [step.2.1]
            exact List.mem_append_right _ (List.mem_map_of_mem _ hv)
          have hw' := IH.1 batch hb' w hw
          intro heq
          rw [heq] at hv'
          exact hw' hv'

/-- C2 (amended): the uniqueness guarantee survives with its per-type supply
hypothesis once the pass contains no mixed-pool slider section (it is the
sliders' overlap with the shorts pool that breaks the original claim — see
the counterexample).  For a `distributedContent` pass over an
id-duplicate-free pool whose sections all draw on a single type pool
(`long_video`, `shorts_grid`, `long_slider`), if for each video type the
number of distinct videos of that type is at least the total count demanded
by the sections requiring it, then no video id appears in two different
sections' batches — whatever the recycling shuffle would do. -/
theorem allocator_unique_no_mixed (shuffle : List Video → List Video)
    (videos : List Video) (sections : List SectionType)
    (hmix : ∀ s ∈ sections, isMixedSection s = false)
    (hnd : (videos.map Video.id).Nodup)
    (hshorts : shortsDemand sections ≤
      (videos.filter (fun v => v.video_type == "Shorts")).length)
    (hlongs : longsDemand sections ≤
      (videos.filter (fun v => v.video_type == "Long Video")).length) :
    (distributedContent shuffle videos sections []).1.Pairwise
      (fun b₁ b₂ => ∀ v ∈ b₁, ∀ w ∈ b₂, v.id ≠ w.id) := by
  rw [distributedContent_eq_allocRun shuffle videos sections [] hmix]
  have hndS : ((videos.filter (fun v => v.video_type == "Shorts")).map
      Video.id).Nodup :=
    List.Nodup.sublist (List.Sublist.map _ (List.filter_sublist _)) hnd
  have hndL : ((videos.filter (fun v => v.video_type == "Long Video")).map
      Video.id).Nodup :=
    List.Nodup.sublist (List.Sublist.map _ (List.filter_sublist _)) hnd
  refine (allocRun_inv shuffle _ _ hndS hndL
    (fun x hx y hy => pools_id_disjoint hnd hx hy) _ [] ?_ ?_).2
  · rw [← shortsDemand_eq_demandSum]
    simpa using hshorts
  · rw [← longsDemand_eq_demandSum sections hmix]
    simpa using hlongs

/-- Witness for the amended C2 theorem at a concrete mixed-free pass. -/
theorem allocator_unique_no_mixed_witness :
    ((∀ s ∈ [SectionType.shorts_grid, SectionType.long_video],
        isMixedSection s = false) ∧
      (poolMix.map Video.id).Nodup ∧
      shortsDemand [SectionType.shorts_grid, SectionType.long_video] ≤
        (poolMix.filter (fun v => v.video_type == "Shorts")).length ∧
      longsDemand [SectionType.shorts_grid, SectionType.long_video] ≤
        (poolMix.filter (fun v => v.video_type == "Long Video")).length) ∧
    (distributedContent id poolMix
        [SectionType.shorts_grid, SectionType.long_video] []).1.Pairwise
      (fun b₁ b₂ => ∀ v ∈ b₁, ∀ w ∈ b₂, v.id ≠ w.id) :=
  ⟨⟨by decide, by decide, by decide, by decide⟩,
    allocator_unique_no_mixed id poolMix
      [SectionType.shorts_grid, SectionType.long_video]
      (by decide) (by decide) (by decide) (by decide)⟩

/-! ## Circular scroll buffer (`InteractiveMarquee`)

`displayVideos` replicates the source list to build the scrollable surface;
the per-frame `animate` callback advances `scrollLeft` by the signed speed
and, on crossing a wrap threshold, resets the offset by exactly
`scrollWidth / 3`.  Offsets are modelled in item-width units (`ℚ`), so the
surface width equals the replicated list's length. -/

/-- `displayVideos` of `src/MainContent.tsx:407-410`: FOUR copies of the
source when it has fewer than 5 items, three copies otherwise. -/
def displayVideosMC (videos : List Video) : List Video :=
  if videos = [] then []
  else if videos.length < 5 then videos ++ videos ++ videos ++ videos
  else videos ++ videos ++ videos

/-- `displayVideos` of `src/unnamed/part_003:426-429`: FIVE copies of the
source when it has fewer than 5 items, three copies otherwise. -/
def displayVideosP3 (videos : List Video) : List Video :=
  if videos = [] then []
  else if videos.length < 5 then
    videos ++ videos ++ videos ++ videos ++ videos
  else videos ++ videos ++ videos

/-- One `animate` frame of `src/MainContent.tsx:412-428`: advance by
`speed`, then wrap by one third-width at the thresholds of the source
(forward: `2·(W/3)`; backward: `1` and `(W/3)·2.5`). -/
def animateStepMC (W speed offset : ℚ) : ℚ :=
  let x := offset + speed
  if 0 < W then
    if 0 < speed then
      if 2 * (W / 3) ≤ x then x - W / 3 else x
    else
      if x ≤ 1 then x + W / 3
      else if W / 3 * (5 / 2) ≤ x then x - W / 3
      else x
  else x

/-- One `animate` frame of `src/unnamed/part_003:431-443`: forward wrap at
`2·(W/3)`, backward wrap at offset `≤ 10`. -/
def animateStepP3 (W speed offset : ℚ) : ℚ :=
  let x := offset + speed
  if 0 < W then
    if 0 < speed ∧ 2 * (W / 3) ≤ x then x - W / 3
    else if speed < 0 ∧ x ≤ 10 then x + W / 3
    else x
  else x

/-- The item rendered `j` slots after scroll offset `x` (unit item width):
the element of the replicated list at index `⌊x⌋ + j`. -/
def renderedAt (l : List Video) (x : ℚ) (j : ℕ) : Option Video :=
  l[(Int.floor x).toNat + j]?

/-- Positional-argument restatement of the option-indexing append lemmas. -/
theorem getElem?_append_right_pos (l₁ l₂ : List Video) (i : ℕ)
    (h : l₁.length ≤ i) : (l₁ ++ l₂)[i]? = l₂[i - l₁.length]? :=
  List.getElem?_append_right h

/-- Positional-argument restatement, left side. -/
theorem getElem?_append_left_pos (l₁ l₂ : List Video) (i : ℕ)
    (h : i < l₁.length) : (l₁ ++ l₂)[i]? = l₁[i]? :=
  List.getElem?_append_left h

/-- A tripled list is periodic with period `|s|` inside its bounds. -/
theorem tripled_periodic (s : List Video) (i : ℕ)
    (h : i + s.length < (s ++ s ++ s).length) :
    (s ++ s ++ s)[i + s.length]? = (s ++ s ++ s)[i]? := by
  simp only [List.length_append] at h
  rw [List.append_assoc]
  by_cases h1 : i < s.length
  · rw [getElem?_append_right_pos s (s ++ s) (i + s.length) (by omega),
      getElem?_append_left_pos s (s ++ s) i h1]
    have e1 : i + s.length - s.length = i := by omega
    rw [e1, List.getElem?_append_left h1]
  · rw [getElem?_append_right_pos s (s ++ s) (i + s.length) (by omega),
      getElem?_append_right_pos s (s ++ s) i (by omega)]
    have e1 : i + s.length - s.length = i := by omega
    rw [e1]
    rw [getElem?_append_right_pos s s i (by omega),
      List.getElem?_append_left (by omega)]

/-- C6 counterexample: the `MainContent.tsx` carousel replicates a 3-item
source FOUR times, not five: its display list has 12 entries, not the
claimed 15, and it is not the 5-fold concatenation. -/
theorem carousel_replication_cex :
    (displayVideosMC [vidTrend, vidPlain, vidPlain2]).length = 12 ∧
    ¬ (displayVideosMC [vidTrend, vidPlain, vidPlain2]).length = 15 ∧
    displayVideosMC [vidTrend, vidPlain, vidPlain2] ≠
      ([vidTrend, vidPlain, vidPlain2] ++ [vidTrend, vidPlain, vidPlain2] ++
        [vidTrend, vidPlain, vidPlain2] ++ [vidTrend, vidPlain, vidPlain2] ++
        [vidTrend, vidPlain, vidPlain2] : List Video) := by
  refine ⟨by decide, by decide, by decide⟩

/-- C6 (amended): for a non-empty source the two carousel variants replicate
3× at 5-or-more items; below 5 items the `part_003` carousel replicates 5×
(so 3 items give a display list of length 15, as claimed), while the
`MainContent.tsx` carousel replicates only 4× (3 items give length 12). -/
theorem carousel_replication (videos : List Video) (hv : videos ≠ []) :
    (5 ≤ videos.length →
      displayVideosMC videos = videos ++ videos ++ videos ∧
      displayVideosP3 videos = videos ++ videos ++ videos) ∧
    (videos.length < 5 →
      displayVideosMC videos = videos ++ videos ++ videos ++ videos ∧
      (displayVideosMC videos).length = 4 * videos.length ∧
      displayVideosP3 videos =
        videos ++ videos ++ videos ++ videos ++ videos ∧
      (displayVideosP3 videos).length = 5 * videos.length) ∧
    (videos.length = 3 →
      (displayVideosP3 videos).length = 15 ∧
      (displayVideosMC videos).length = 12) := by
  refine ⟨?_, ?_, ?_⟩
  · intro h5
    constructor
    · simp [displayVideosMC, hv, Nat.not_lt.mpr h5]
    · simp [displayVideosP3, hv, Nat.not_lt.mpr h5]
  · intro h5
    refine ⟨?_, ?_, ?_, ?_⟩
    · simp [displayVideosMC, hv, h5]
    · simp [displayVideosMC, hv, h5, List.length_append]
      ring
    · simp [displayVideosP3, hv, h5]
    · simp [displayVideosP3, hv, h5, List.length_append]
      ring
  · intro h3
    have h5 : videos.length < 5 := by omega
    constructor
    · simp [displayVideosP3, hv, h5, List.length_append, h3]
    · simp [displayVideosMC, hv, h5, List.length_append, h3]

/-- Witness for the amended C6 theorem at a concrete 3-item source. -/
theorem carousel_replication_witness :
    ([vidTrend, vidPlain, vidPlain2] : List Video) ≠ [] ∧
    ((displayVideosP3 [vidTrend, vidPlain, vidPlain2]).length = 15 ∧
      (displayVideosMC [vidTrend, vidPlain, vidPlain2]).length = 12) :=
  ⟨by decide,
    (carousel_replication [vidTrend, vidPlain, vidPlain2]
      (by decide)).2.2 (by decide)⟩

/-- C7 counterexample: for a small (3-item) source the wrap reset is NOT
seamless.  In both carousel variants the forward wrap fires and moves the
offset by exactly one third of the replicated surface (4 items for the 12-
item `MainContent.tsx` surface at speed 0.8; 5 items for the 15-item
`part_003` surface), but one third of the surface is not a multiple of the
3-item source, so the item rendered at the reset offset differs from the one
rendered before the reset — a visible jump. -/
theorem carousel_wrap_cex :
    animateStepMC 12 (4/5) (36/5) = 8 - 12 / 3 ∧
    (displayVideosMC [vidTrend, vidPlain, vidPlain2]).length = 12 ∧
    renderedAt (displayVideosMC [vidTrend, vidPlain, vidPlain2])
        (8 - 12 / 3) 0 ≠
      renderedAt (displayVideosMC [vidTrend, vidPlain, vidPlain2]) 8 0 ∧
    animateStepP3 15 (4/5) (46/5) = 10 - 15 / 3 ∧
    (displayVideosP3 [vidTrend, vidPlain, vidPlain2]).length = 15 ∧
    renderedAt (displayVideosP3 [vidTrend, vidPlain, vidPlain2])
        (10 - 15 / 3) 0 ≠
      renderedAt (displayVideosP3 [vidTrend, vidPlain, vidPlain2]) 10 0 := by
  have e1 : (8 : ℚ) - 12 / 3 = 4 := by norm_num
  have e2 : (10 : ℚ) - 15 / 3 = 5 := by norm_num
  refine ⟨?_, by decide, ?_, ?_, by decide, ?_⟩
  · simp only [animateStepMC]
    norm_num
  · rw [e1]
    simp only [renderedAt]
    norm_num
    decide
  · simp only [animateStepP3]
    norm_num
  · rw [e2]
    simp only [renderedAt]
    norm_num
    decide

/-- C7 (amended): the seamless-wrap invariant holds for sources of 5 or more
items (3× replication).  Whenever the forward wrap condition fires, both
variants' `animate` step changes the offset by exactly one third of the
replicated-surface width; and for a source with `5 ≤ |s|` the item sequence
rendered after subtracting one third-width is identical to the one rendered
before, because one third of the 3× surface is exactly one source-length.
For sources below 5 items (4×/5× replication) a third of the surface is not
a multiple of the source length and the invariant fails — see the
counterexample. -/
theorem carousel_wrap_continuity (s : List Video) (x : ℚ) (j : ℕ)
    (hs : 5 ≤ s.length)
    (hx : (s.length : ℚ) ≤ x)
    (hj : (Int.floor x).toNat + j < (displayVideosMC s).length) :
    (∀ (W speed offset : ℚ), 0 < W → 0 < speed →
        2 * (W / 3) ≤ offset + speed →
        animateStepMC W speed offset = offset + speed - W / 3 ∧
        animateStepP3 W speed offset = offset + speed - W / 3) ∧
    renderedAt (displayVideosMC s)
        (x - ((displayVideosMC s).length : ℚ) / 3) j =
      renderedAt (displayVideosMC s) x j ∧
    renderedAt (displayVideosP3 s)
        (x - ((displayVideosP3 s).length : ℚ) / 3) j =
      renderedAt (displayVideosP3 s) x j := by
  have hne : s ≠ [] := by
    intro h
    rw [h] at hs
    simp at hs
  have hMC : displayVideosMC s = s ++ s ++ s := by
    simp [displayVideosMC, hne, Nat.not_lt.mpr hs]
  have hP3 : displayVideosP3 s = s ++ s ++ s := by
    simp [displayVideosP3, hne, Nat.not_lt.mpr hs]
  have hthird : (((s ++ s ++ s).length : ℚ)) / 3 = (s.length : ℚ) := by
    simp only [List.length_append]
    push_cast
    ring
  have hfloor_ge : (s.length : ℤ) ≤ Int.floor x := by
    rw [Int.le_floor]
    push_cast
    exact hx
  have hkey : renderedAt (s ++ s ++ s)
      (x - ((s ++ s ++ s).length : ℚ) / 3) j =
      renderedAt (s ++ s ++ s) x j := by
    rw [hthird]
    simp only [renderedAt]
    rw [Int.floor_sub_nat]
    have htn : ((Int.floor x) - (s.length : ℤ)).toNat + j + s.length =
        (Int.floor x).toNat + j := by omega
    have hper := tripled_periodic s
      (((Int.floor x) - (s.length : ℤ)).toNat + j)
      (by rw [htn]; rw [hMC] at hj; exact hj)
    rw [htn] at hper
    exact hper.symm
  refine ⟨?_, ?_, ?_⟩
  · intro W speed offset hW hsp hcond
    constructor
    · simp only [animateStepMC]
      rw [if_pos hW, if_pos hsp, if_pos hcond]
    · simp only [animateStepP3]
      rw [if_pos hW, if_pos ⟨hsp, hcond⟩]
  · rw [hMC]
    exact hkey
  · rw [hP3]
    exact hkey

/-- Witness for the amended C7 theorem at a concrete 5-item source and
offset. -/
theorem carousel_wrap_continuity_witness :
    (5 ≤ ([vidTrend, vidPlain, vidPlain2, mkShort "d", mkShort "e"] :
        List Video).length ∧
      ((([vidTrend, vidPlain, vidPlain2, mkShort "d", mkShort "e"] :
        List Video).length : ℚ) ≤ 10) ∧
      (Int.floor (10 : ℚ)).toNat + 2 <
        (displayVideosMC [vidTrend, vidPlain, vidPlain2, mkShort "d",
          mkShort "e"]).length) ∧
    renderedAt (displayVideosMC [vidTrend, vidPlain, vidPlain2, mkShort "d",
        mkShort "e"])
        (10 - ((displayVideosMC [vidTrend, vidPlain, vidPlain2, mkShort "d",
          mkShort "e"]).length : ℚ) / 3) 2 =
      renderedAt (displayVideosMC [vidTrend, vidPlain, vidPlain2,
        mkShort "d", mkShort "e"]) 10 2 := by
  have h1 : (5 : ℕ) ≤ ([vidTrend, vidPlain, vidPlain2, mkShort "d",
      mkShort "e"] : List Video).length := by decide
  have h2 : ((([vidTrend, vidPlain, vidPlain2, mkShort "d", mkShort "e"] :
      List Video).length : ℚ) ≤ 10) := by norm_num
  have h3 : (Int.floor (10 : ℚ)).toNat + 2 <
      (displayVideosMC [vidTrend, vidPlain, vidPlain2, mkShort "d",
        mkShort "e"]).length := by
    norm_num
    decide
  exact ⟨⟨h1, h2, h3⟩,
    (carousel_wrap_continuity [vidTrend, vidPlain, vidPlain2, mkShort "d",
      mkShort "e"] 10 2 h1 h2 h3).2.1⟩

/-! ## Prefetch buffering cache (`src/src/smartCache.ts`, `src/smartCache.ts`)

The keyed browser cache is an association list in insertion order; the
network is an oracle that either throws or returns a `(status, body)`
response.  `preloadVideoChunk` translates the `try { fetch; put } catch`
of the source: every oracle outcome, including a throw, yields a result —
no error escapes to the caller.  `initSmartBuffering` dispatches the first
five entries; the source awaits them via `Promise.allSettled` (per-entry
isolation), modelled here by sequential processing of the same entries —
writes are keyed by URL, so the final key set is the same. -/

/-- Outcome of a byte-range `fetch`: a thrown error (network failure, CORS
rejection, …) or a response with an HTTP status and a body. -/
inductive FetchResult where
  | thrown
  | resp (status : ℕ) (body : List ℕ)
  deriving DecidableEq, Repr

/-- The keyed store of the `Cache` API, in insertion order. -/
abbrev CacheStore := List (String × List ℕ)

/-- `cache.match(url)` as an existence check. -/
def cacheMatch (c : CacheStore) (url : String) : Bool :=
  c.any (fun e => e.1 == url)

/-- JS `String.prototype.startsWith`, modelled on the character lists (the
built-in `String.startsWith` is byte-position based and does not reduce in
the kernel; this is extensionally the same check). -/
def strStartsWith (s p : String) : Bool := p.data.isPrefixOf s.data

/-- `preloadVideoChunk` of `src/src/smartCache.ts:11-45`: reject non-http
URLs, return a hit unchanged, otherwise fetch the leading byte range and
store the response under the URL on `ok`/`206`; any throw is caught and
reported as `false` with the store unchanged. -/
def preloadVideoChunk (fetchO : String → FetchResult) (c : CacheStore)
    (url : String) : Bool × CacheStore :=
  if ¬ strStartsWith url "http" then (false, c)
  else if cacheMatch c url then (true, c)
  else
    match fetchO url with
    | .thrown => (false, c)
    | .resp status body =>
        if (200 ≤ status ∧ status < 300) ∨ status = 206 then
          (true, c ++ [(url, body)])
        else (false, c)

/-- `initSmartBuffering` of `src/src/smartCache.ts:51-66`: no-op when
offline or on an empty list; otherwise warm the first five entries that
carry a `video_url`, isolating each entry's outcome. -/
def initSmartBuffering (online : Bool) (fetchO : String → FetchResult)
    (videos : List Video) (c : CacheStore) : CacheStore :=
  if ¬ online ∨ videos = [] then c
  else
    (videos.take 5).foldl
      (fun acc v =>
        if v.video_url ≠ "" then (preloadVideoChunk fetchO acc v.video_url).2
        else acc) c

/-- `cleanUpOldCache` of `src/src/smartCache.ts:71-82`: if the store holds
more than 50 keys, delete `keys[i]` for `i < keys.length - 20` (the oldest
entries, `keys()` being insertion-ordered). -/
def cleanUpOldCache (c : CacheStore) : CacheStore :=
  let keys := c.map (·.1)
  if 50 < keys.length then
    (keys.take (keys.length - 20)).foldl
      (fun acc k => acc.filter (fun e => !(e.1 == k))) c
  else c

/-- A fixture video carrying the given asset URL. -/
def mkVid (u : String) : Video := ⟨u, u, "misc", false, "Shorts"⟩

/-- C8: warming five distinct valid URLs whose third fetch throws leaves the
cache holding entries for exactly URLs 1, 2, 4 and 5 — the failure is
caught inside the per-entry `try`/`catch` (the model returns a store for
every oracle outcome, including throws: no error reaches the caller), and
it does not prevent the later entries from being fetched and cached. -/
theorem warm_skips_failed_entry (fetchO : String → FetchResult)
    (u1 u2 u3 u4 u5 : String) (b1 b2 b4 b5 : List ℕ)
    (h1 : strStartsWith u1 "http" = true)
    (h2 : strStartsWith u2 "http" = true)
    (h3 : strStartsWith u3 "http" = true)
    (h4 : strStartsWith u4 "http" = true)
    (h5 : strStartsWith u5 "http" = true)
    (hdist : ([u1, u2, u3, u4, u5] : List String).Nodup)
    (hf1 : fetchO u1 = .resp 206 b1) (hf2 : fetchO u2 = .resp 206 b2)
    (hf3 : fetchO u3 = .thrown)
    (hf4 : fetchO u4 = .resp 206 b4) (hf5 : fetchO u5 = .resp 206 b5) :
    (initSmartBuffering true fetchO
        [mkVid u1, mkVid u2, mkVid u3, mkVid u4, mkVid u5] []).map (·.1) =
      [u1, u2, u4, u5] := by
  simp only [List.nodup_cons, List.mem_cons, List.mem_singleton,
    List.not_mem_nil, not_or, List.nodup_nil, and_true, not_false_iff]
    at hdist
  obtain ⟨⟨h12, h13, h14, h15⟩, ⟨h23, h24, h25⟩, ⟨h34, h35⟩, h45⟩ := hdist
  have hne : ∀ u : String, strStartsWith u "http" = true → u ≠ "" := by
    intro u hu he
    rw [he] at hu
    exact absurd hu (by decide)
  have e21 : (u1 == u2) = false := by simp [h12]
  have e31 : (u1 == u3) = false := by simp [h13]
  have e32 : (u2 == u3) = false := by simp [h23]
  have e41 : (u1 == u4) = false := by simp [h14]
  have e42 : (u2 == u4) = false := by simp [h24]
  have e51 : (u1 == u5) = false := by simp [h15]
  have e52 : (u2 == u5) = false := by simp [h25]
  have e54 : (u4 == u5) = false := by simp [h45]
  simp [initSmartBuffering, preloadVideoChunk, cacheMatch, mkVid,
    h1, h2, h3, h4, h5, hf1, hf2, hf3, hf4, hf5,
    hne u1 h1, hne u2 h2, hne u3 h3, hne u4 h4, hne u5 h5,
    e21, e31, e32, e41, e42, e51, e52, e54]

/-- A concrete oracle that throws on the third URL and succeeds elsewhere. -/
def fetchCex : String → FetchResult :=
  fun u => if u = "http://u3" then .thrown else .resp 206 [7]

/-- Witness for the C8 theorem at concrete URLs and oracle. -/
theorem warm_skips_failed_entry_witness :
    (strStartsWith "http://u1" "http" = true ∧
      (["http://u1", "http://u2", "http://u3", "http://u4", "http://u5"] :
        List String).Nodup ∧
      fetchCex "http://u3" = .thrown) ∧
    (initSmartBuffering true fetchCex
        [mkVid "http://u1", mkVid "http://u2", mkVid "http://u3",
          mkVid "http://u4", mkVid "http://u5"] []).map (·.1) =
      ["http://u1", "http://u2", "http://u4", "http://u5"] :=
  ⟨⟨by decide, by decide, by decide⟩,
    warm_skips_failed_entry fetchCex
      "http://u1" "http://u2" "http://u3" "http://u4" "http://u5"
      [7] [7] [7] [7]
      (by decide) (by decide) (by decide) (by decide) (by decide)
      (by decide) (by decide) (by decide) (by decide) (by decide)
      (by decide)⟩

/-- Deleting the first `m` keys (in insertion order) from a unique-keyed
store drops exactly its first `m` entries. -/
theorem foldl_delete_drop :
    ∀ (c : CacheStore) (m : ℕ), m ≤ c.length → (c.map (·.1)).Nodup →
      ((c.map (·.1)).take m).foldl
        (fun acc k => acc.filter (fun e => !(e.1 == k))) c = c.drop m := by
  intro c
  induction c with
  | nil =>
      intro m hm _
      simp only [List.length_nil, Nat.le_zero] at hm
      subst hm
      simp
  | cons e t ih =>
      intro m hm hnd
      cases m with
      | zero => simp
      | succ k =>
          rw [List.map_cons, List.nodup_cons] at hnd
          simp only [List.map_cons, List.take_succ_cons, List.foldl_cons]
          have hstep : (e :: t).filter (fun x => !(x.1 == e.1)) = t := by
            rw [List.filter_cons]
            simp only [beq_self_eq_true, Bool.not_true, Bool.false_eq_true,
              if_false]
            rw [List.filter_eq_self]
            intro x hx
            have hxne : x.1 ≠ e.1 := by
              intro hcon
              exact hnd.1 (hcon ▸ List.mem_map_of_mem _ hx)
            simp [hxne]
          rw [hstep]
          exact ih k (by simpa using hm) hnd.2

/-- C9: the cache maintenance pass leaves a store of at most 50 entries
unchanged; above 50 it deletes the oldest entries so that exactly the 20
most recently added remain; hence the store never exceeds the 50-entry
ceiling after any single pass. -/
theorem cleanUpOldCache_spec (c : CacheStore)
    (hnd : (c.map (·.1)).Nodup) :
    (c.length ≤ 50 → cleanUpOldCache c = c) ∧
    (50 < c.length → cleanUpOldCache c = c.drop (c.length - 20) ∧
      (cleanUpOldCache c).length = 20) ∧
    (cleanUpOldCache c).length ≤ 50 := by
  by_cases hgt : 50 < c.length
  · have heq : cleanUpOldCache c = c.drop (c.length - 20) := by
      simp only [cleanUpOldCache, List.length_map]
      rw [if_pos hgt]
      exact foldl_delete_drop c (c.length - 20) (by omega) hnd
    refine ⟨fun h => absurd hgt (by omega), fun _ => ⟨heq, ?_⟩, ?_⟩
    · rw [heq, List.length_drop]
      omega
    · rw [heq, List.length_drop]
      omega
  · have heq : cleanUpOldCache c = c := by
      simp only [cleanUpOldCache, List.length_map]
      rw [if_neg hgt]
    exact ⟨fun _ => heq, fun h => absurd h hgt, by rw [heq]; omega⟩

/-- Witness for the C9 theorem at a concrete two-entry store. -/
theorem cleanUpOldCache_spec_witness :
    (([("a", [1]), ("b", [2])] : CacheStore).map (·.1)).Nodup ∧
    cleanUpOldCache ([("a", [1]), ("b", [2])] : CacheStore) =
      ([("a", [1]), ("b", [2])] : CacheStore) :=
  ⟨by decide,
    (cleanUpOldCache_spec [("a", [1]), ("b", [2])] (by decide)).1
      (by decide)⟩
